import Mathlib

/-!
Shallow embedding of the Facetrack visitor session tracker
(`state_tracker.py`, `database.py`, `face_embedder.py`).

Modelling conventions:
* Track ids, visitor ids, crops and embeddings are opaque `Nat` tokens
  (a crop token stands for the pixel region `frame[y1:y2, x1:x2]`; the
  claims never inspect pixels).
* Wall-clock time is `ℤ` (clock ticks: the tracker only adds a
  timeout to a reading and compares readings, never divides them).
  Each frame supplies the three observation
  points at which the Python code reads the clock: the entry-event
  timestamp (loop 2), the `time.time()` taken when a visitor is marked
  pending (loop 3, line 171) and the `time.time()` of the sweep
  (loop 4, line 176).
* Python dicts become association lists (insertion ordered, unique
  keys); Python sets become duplicate-free lists.
* The external sinks (image persistence `_save_cropped_face`, the
  `Events` table insert `database.log_event`, and the `Visitors` insert
  of `register_new_visitor`) can each fail; a frame carries oracles
  saying which of those calls succeed.  `log_event` catches its own
  exception and changes no tracker state, so a failed DB write only
  means the event is missing from the emitted event list.
* The pgvector cosine-similarity operator `1 - (embedding <=> x)` is an
  external scalar function of two embeddings; it is a parameter
  `sim : Emb → Emb → ℚ` of the configuration.
-/

namespace Facetrack

abbrev TrackId := Nat
abbrev VisitorId := Nat
abbrev Crop := Nat
abbrev Emb := Nat
abbrev Time := ℤ

/-- Kind of a Visitor Event row in the `Events` table. -/
inductive EvKind where
  | entry : EvKind
  | exit : EvKind
deriving DecidableEq, Repr

/-- A recorded Visitor Event (a successfully inserted `Events` row). -/
structure Event where
  visitor : VisitorId
  kind : EvKind
  time : Time
deriving DecidableEq, Repr

/-- Value of `self.active_tracks[track_id]`: `{'visitor_id': ..., 'last_crop': ...}`. -/
structure TrackData where
  visitor_id : VisitorId
  last_crop : Crop
deriving DecidableEq, Repr

/-- Value of `self.pending_exit[visitor_id]`: `{'timestamp': ..., 'last_crop': ...}`. -/
structure PendingData where
  timestamp : Time
  last_crop : Crop
deriving DecidableEq, Repr

/-- The three state dictionaries of `VisitorTracker.__init__`. -/
structure TrackerState where
  active_tracks : List (TrackId × TrackData)
  pending_exit : List (VisitorId × PendingData)
  logged_entry_this_visit : List VisitorId
deriving DecidableEq, Repr

/-- The `Visitors` table: stored `(visitor_id, embedding)` rows plus the id
the store will assign to the next registration. -/
structure DbState where
  store : List (VisitorId × Emb)
  next_id : VisitorId
deriving DecidableEq, Repr

/-- Full system state threaded through frame updates. -/
structure SysState where
  db : DbState
  tr : TrackerState
deriving DecidableEq, Repr

/-- Configuration plus the two external pure collaborators:
`get_embedding` is `FaceEmbedder.get_embedding` (`None` = no usable face),
`sim` is the pgvector cosine-similarity operator. -/
structure Config where
  similarity_threshold : ℚ
  exit_timeout : Time
  sim : Emb → Emb → ℚ
  get_embedding : Crop → Option Emb

/-- One frame's input: the tracker output (`none` models `tracks.id is None`),
the clock readings, and the success oracles of the external sinks. -/
structure FrameEnv where
  tracks : Option (List (TrackId × Crop))
  tEntry : Time
  tMark : Time
  tSweep : Time
  register_ok : Emb → Bool
  save_entry_ok : VisitorId → Bool
  db_entry_ok : VisitorId → Bool
  save_exit_ok : VisitorId → Bool
  db_exit_ok : VisitorId → Bool

/-- All external sinks succeed during this frame (normal operation). -/
def AllOk (f : FrameEnv) : Prop :=
  (∀ e, f.register_ok e = true) ∧ (∀ v, f.save_entry_ok v = true) ∧
    (∀ v, f.db_entry_ok v = true) ∧ (∀ v, f.save_exit_ok v = true) ∧
    (∀ v, f.db_exit_ok v = true)

/-! ### database.py -/

/-- `register_new_visitor` (success path): insert the embedding into
`Visitors`, returning the freshly assigned id. -/
def register_new_visitor (db : DbState) (emb : Emb) : DbState × VisitorId :=
  ({ store := db.store ++ [(db.next_id, emb)], next_id := db.next_id + 1 }, db.next_id)

/-- `find_visitor`: the SQL query
`SELECT visitor_id, (1 - (embedding <=> x)) AS similarity FROM Visitors
 WHERE (1 - (embedding <=> x)) >= threshold ORDER BY similarity DESC LIMIT 1`.
Returns a row of maximal similarity among those meeting the threshold
(SQL leaves the choice among ties unspecified; the model keeps the
later row, and every claim is stated through the characterisation
"maximal similarity, ≥ threshold"). -/
def find_visitor (cfg : Config) (emb : Emb) : List (VisitorId × Emb) → Option (VisitorId × ℚ)
  | [] => none
  | p :: rest =>
    match find_visitor cfg emb rest with
    | none =>
      if cfg.similarity_threshold ≤ cfg.sim emb p.2 then some (p.1, cfg.sim emb p.2) else none
    | some (v, sbest) =>
      if cfg.similarity_threshold ≤ cfg.sim emb p.2 ∧ sbest < cfg.sim emb p.2 then
        some (p.1, cfg.sim emb p.2)
      else some (v, sbest)

/-! ### state_tracker.py, update_frame -/

/-- Lines 101–118: resolution of a new track binding.  Embed the crop
(`None` → skip), look the embedding up in the store, otherwise register
a new visitor (registration may fail → skip). -/
def resolveNew (cfg : Config) (f : FrameEnv) (db : DbState) (crop : Crop) :
    DbState × Option VisitorId :=
  match cfg.get_embedding crop with
  | none => (db, none)
  | some emb =>
    match find_visitor cfg emb db.store with
    | some (v, _) => (db, some v)
    | none =>
      if f.register_ok emb then
        let r := register_new_visitor db emb
        (r.1, some r.2)
      else (db, none)

/-- Set `active_tracks[tid]['last_crop'] = c` (line 129). -/
def setCrop (l : List (TrackId × TrackData)) (tid : TrackId) (c : Crop) :
    List (TrackId × TrackData) :=
  l.map fun p => if p.1 = tid then (p.1, { p.2 with last_crop := c }) else p

/-- `current_visitor_ids_in_frame.add v` (a Python set; model keeps first
insertion order and no duplicates). -/
def addVisible (vs : List VisitorId) (v : VisitorId) : List VisitorId :=
  if v ∈ vs then vs else vs ++ [v]

/-- Accumulator of loop 1. -/
structure Loop1Out where
  db : DbState
  active : List (TrackId × TrackData)
  visible : List VisitorId
deriving Repr

/-- Body of loop 1 (lines 90–129) for one `(track_id, crop)` pair. -/
def loop1Step (cfg : Config) (f : FrameEnv) (acc : Loop1Out) (tc : TrackId × Crop) :
    Loop1Out :=
  match List.lookup tc.1 acc.active with
  | some td =>
    { acc with
      active := setCrop acc.active tc.1 tc.2
      visible := addVisible acc.visible td.visitor_id }
  | none =>
    match resolveNew cfg f acc.db tc.2 with
    | (db2, none) => { acc with db := db2 }
    | (db2, some v) =>
      { db := db2
        active := acc.active ++ [(tc.1, ⟨v, tc.2⟩)]
        visible := addVisible acc.visible v }

/-- Loop 1 over the frame's reported `(track_id, crop)` pairs
(`tracks.id is None` contributes the empty list). -/
def loop1 (cfg : Config) (f : FrameEnv) (db : DbState)
    (active : List (TrackId × TrackData)) : Loop1Out :=
  (f.tracks.getD []).foldl (loop1Step cfg f) ⟨db, active, []⟩

/-- Accumulator of loop 2. -/
structure Loop2Out where
  pending : List (VisitorId × PendingData)
  logged : List VisitorId
  events : List Event
deriving Repr

/-- Remove every pending entry keyed by `v` (`self.pending_exit.pop(v)`). -/
def eraseKeyP (l : List (VisitorId × PendingData)) (v : VisitorId) :
    List (VisitorId × PendingData) :=
  l.filter fun p => p.1 ≠ v

/-- Lines 143–147: scan `active_tracks.values()` for the first entry whose
`visitor_id` matches and return its `last_crop`. -/
def firstCropFor (active : List (TrackId × TrackData)) (v : VisitorId) : Option Crop :=
  match active.find? (fun p => p.2.visitor_id = v) with
  | some p => some p.2.last_crop
  | none => none

/-- Body of loop 2 (lines 133–154) for one visible visitor: cancel any
pending exit, then, if the visitor has not yet logged an entry this
visit, save the crop image and (on success) insert the entry event and
add the visitor to `logged_entry_this_visit`. -/
def loop2Step (f : FrameEnv) (active : List (TrackId × TrackData)) (acc : Loop2Out)
    (v : VisitorId) : Loop2Out :=
  let pending1 := eraseKeyP acc.pending v
  if v ∈ acc.logged then { acc with pending := pending1 }
  else
    match firstCropFor active v with
    | none => { acc with pending := pending1 }
    | some _ =>
      if f.save_entry_ok v then
        { pending := pending1
          logged := acc.logged ++ [v]
          events := acc.events ++
            (if f.db_entry_ok v then [⟨v, EvKind.entry, f.tEntry⟩] else []) }
      else { acc with pending := pending1 }

/-- Loop 2 over `current_visitor_ids_in_frame`. -/
def loop2 (f : FrameEnv) (active : List (TrackId × TrackData)) (visible : List VisitorId)
    (pending : List (VisitorId × PendingData)) (logged : List VisitorId) : Loop2Out :=
  visible.foldl (loop2Step f active) ⟨pending, logged, []⟩

/-- `self.pending_exit[v] = {...}` — dict assignment (overwrite). -/
def insertPending (l : List (VisitorId × PendingData)) (v : VisitorId) (pd : PendingData) :
    List (VisitorId × PendingData) :=
  eraseKeyP l v ++ [(v, pd)]

/-- Loop 3 (lines 158–173): pop every active track whose id is not
reported this frame; mark its visitor pending unless the visitor is
still visible under another binding.  Returns the surviving
`active_tracks` and the updated `pending_exit`. -/
def loop3 (f : FrameEnv) (active : List (TrackId × TrackData)) (currentIds : List TrackId)
    (visible : List VisitorId) (pending : List (VisitorId × PendingData)) :
    List (TrackId × TrackData) × List (VisitorId × PendingData) :=
  let lost := active.filter fun p => p.1 ∉ currentIds
  let kept := active.filter fun p => p.1 ∈ currentIds
  let pending3 := lost.foldl
    (fun pnd p =>
      if p.2.visitor_id ∈ visible then pnd
      else insertPending pnd p.2.visitor_id ⟨f.tMark, p.2.last_crop⟩)
    pending
  (kept, pending3)

/-- Accumulator of loop 4. -/
structure Loop4Out where
  pending : List (VisitorId × PendingData)
  logged : List VisitorId
  events : List Event
deriving Repr

/-- `time_disappeared > self.exit_timeout` (line 182). -/
def expiredAt (cfg : Config) (f : FrameEnv) (p : VisitorId × PendingData) : Prop :=
  cfg.exit_timeout < f.tSweep - p.2.timestamp

instance (cfg : Config) (f : FrameEnv) (p : VisitorId × PendingData) :
    Decidable (expiredAt cfg f p) :=
  inferInstanceAs (Decidable (cfg.exit_timeout < f.tSweep - p.2.timestamp))

/-- Body of loop 4 (lines 179–196) for one snapshot entry: on timeout,
save the exit image, on success insert the exit event, and in every
case remove the visitor from `pending_exit` and from
`logged_entry_this_visit`. -/
def loop4Step (cfg : Config) (f : FrameEnv) (acc : Loop4Out) (p : VisitorId × PendingData) :
    Loop4Out :=
  if expiredAt cfg f p then
    { pending := eraseKeyP acc.pending p.1
      logged := acc.logged.filter fun v => v ≠ p.1
      events := acc.events ++
        (if f.save_exit_ok p.1 then
          (if f.db_exit_ok p.1 then [⟨p.1, EvKind.exit, f.tSweep⟩] else [])
        else []) }
  else acc

/-- Loop 4: iterate over the snapshot `list(self.pending_exit.items())`
while mutating the live buffer. -/
def loop4 (cfg : Config) (f : FrameEnv) (pending3 : List (VisitorId × PendingData))
    (logged : List VisitorId) (events : List Event) : Loop4Out :=
  pending3.foldl (loop4Step cfg f) ⟨pending3, logged, events⟩

/-- `VisitorTracker.update_frame`: the four loops in order, returning the
new state and the Visitor Events recorded during this frame. -/
def update_frame (cfg : Config) (f : FrameEnv) (s : SysState) : SysState × List Event :=
  let current_track_ids := (f.tracks.getD []).map Prod.fst
  let o1 := loop1 cfg f s.db s.tr.active_tracks
  let o2 := loop2 f o1.active o1.visible s.tr.pending_exit s.tr.logged_entry_this_visit
  let kp := loop3 f o1.active current_track_ids o1.visible o2.pending
  let o4 := loop4 cfg f kp.2 o2.logged o2.events
  (⟨o1.db,
    { active_tracks := kp.1
      pending_exit := o4.pending
      logged_entry_this_visit := o4.logged }⟩,
   o4.events)

/-- Run a sequence of frame updates, concatenating the recorded events. -/
def runFrames (cfg : Config) (fs : List FrameEnv) (s : SysState) : SysState × List Event :=
  match fs with
  | [] => (s, [])
  | f :: rest =>
    let r1 := update_frame cfg f s
    let r2 := runFrames cfg rest r1.1
    (r2.1, r1.2 ++ r2.2)

/-- State of a freshly constructed `VisitorTracker` over an empty store. -/
def initState : SysState :=
  ⟨⟨[], 0⟩, ⟨[], [], []⟩⟩

/-- The frame's `current_visitor_ids_in_frame` set, as computed by loop 1. -/
def visibleOf (cfg : Config) (f : FrameEnv) (s : SysState) : List VisitorId :=
  (loop1 cfg f s.db s.tr.active_tracks).visible

/-! ### Derived observations used by the claims -/

def pendingKeys (l : List (VisitorId × PendingData)) : List VisitorId :=
  l.map Prod.fst

def activeVisitors (l : List (TrackId × TrackData)) : List VisitorId :=
  l.map fun p => p.2.visitor_id

/-- Visitors of the Active Track Entries this frame removes (loop 3's lost set). -/
def lostVisitorsOf (cfg : Config) (f : FrameEnv) (s : SysState) : List VisitorId :=
  activeVisitors ((loop1 cfg f s.db s.tr.active_tracks).active.filter
    fun p => p.1 ∉ (f.tracks.getD []).map Prod.fst)

/-- The sequence of event kinds recorded for one visitor. -/
def visitorKinds (evs : List Event) (v : VisitorId) : List EvKind :=
  (evs.filter fun e => e.visitor = v).map Event.kind

/-- Structural well-formedness of the tracker state (dict keys unique,
sets duplicate-free, Pending Exit Buffer disjoint from the visitors
currently backing Active Track Entries). -/
def WF (s : SysState) : Prop :=
  (s.tr.active_tracks.map Prod.fst).Nodup ∧
    (pendingKeys s.tr.pending_exit).Nodup ∧
    s.tr.logged_entry_this_visit.Nodup ∧
    ∀ v ∈ pendingKeys s.tr.pending_exit, v ∉ activeVisitors s.tr.active_tracks

/-- Every visitor backing an Active Track Entry or a Pending Exit Entry has
an open logged entry (holds on runs whose sinks succeed). -/
def LogInv (s : SysState) : Prop :=
  (∀ v ∈ activeVisitors s.tr.active_tracks, v ∈ s.tr.logged_entry_this_visit) ∧
    ∀ v ∈ pendingKeys s.tr.pending_exit, v ∈ s.tr.logged_entry_this_visit

/-- The kinds of one visitor's events alternate entry, exit, entry, … -/
def AltAt (l : List EvKind) : Prop :=
  ∀ i (h : i < l.length), l[i] = if i % 2 = 0 then EvKind.entry else EvKind.exit

/-- Per-visitor event-log characterisation: alternation starting with an
entry, with the open/closed status `opened` tracking the parity. -/
structure VChar (l : List EvKind) (opened : Prop) : Prop where
  alt : AltAt l
  parity : opened ↔ l.length % 2 = 1
  counts_open : opened → l.count EvKind.entry = l.count EvKind.exit + 1
  counts_closed : ¬opened → l.count EvKind.entry = l.count EvKind.exit

/-! ### Loop 1 fold invariant -/

/-- Invariant carried through loop 1: `active0` is `self.active_tracks` at
frame start, `done` the already-processed track ids. -/
structure L1Inv (active0 : List (TrackId × TrackData)) (done : List TrackId)
    (acc : Loop1Out) : Prop where
  nodupKeys : (acc.active.map Prod.fst).Nodup
  visNodup : acc.visible.Nodup
  doneVisible : ∀ p ∈ acc.active, p.1 ∈ done → p.2.visitor_id ∈ acc.visible
  visibleTrack : ∀ v ∈ acc.visible, ∃ p ∈ acc.active, p.2.visitor_id = v
  oldEntry : ∀ p ∈ acc.active, p.1 ∉ done → p ∈ active0

/-! ### Loop 3 characterisation -/

/-- The fold body of loop 3. -/
def loop3Step (f : FrameEnv) (visible : List VisitorId)
    (pnd : List (VisitorId × PendingData)) (p : TrackId × TrackData) :
    List (VisitorId × PendingData) :=
  if p.2.visitor_id ∈ visible then pnd
  else insertPending pnd p.2.visitor_id ⟨f.tMark, p.2.last_crop⟩

/-! ### Loop 4 characterisation -/

/-- Keys of the Pending Exit Entries this sweep expires. -/
def expiredKeys (cfg : Config) (f : FrameEnv) (l : List (VisitorId × PendingData)) :
    List VisitorId :=
  (l.filter fun p => expiredAt cfg f p).map Prod.fst

/-- Exit events one snapshot entry contributes during the sweep. -/
def exitEvts (cfg : Config) (f : FrameEnv) (p : VisitorId × PendingData) : List Event :=
  if expiredAt cfg f p then
    (if f.save_exit_ok p.1 then
      (if f.db_exit_ok p.1 then [⟨p.1, EvKind.exit, f.tSweep⟩] else [])
    else [])
  else []

/-! ### Frame-level decomposition of update_frame -/

/-- Output of loop 1 for a frame applied to a state. -/
def frameO1 (cfg : Config) (f : FrameEnv) (s : SysState) : Loop1Out :=
  loop1 cfg f s.db s.tr.active_tracks

/-- Output of loop 2 for a frame applied to a state. -/
def frameO2 (cfg : Config) (f : FrameEnv) (s : SysState) : Loop2Out :=
  loop2 f (frameO1 cfg f s).active (frameO1 cfg f s).visible s.tr.pending_exit
    s.tr.logged_entry_this_visit

/-- The Active Track Entries loop 3 removes this frame. -/
def frameLost (cfg : Config) (f : FrameEnv) (s : SysState) : List (TrackId × TrackData) :=
  (frameO1 cfg f s).active.filter fun p => p.1 ∉ (f.tracks.getD []).map Prod.fst

/-- The Pending Exit Buffer as loop 4 receives it. -/
def framePending3 (cfg : Config) (f : FrameEnv) (s : SysState) :
    List (VisitorId × PendingData) :=
  (frameLost cfg f s).foldl (loop3Step f (frameO1 cfg f s).visible)
    (frameO2 cfg f s).pending

instance (s : SysState) : Decidable (WF s) :=
  inferInstanceAs (Decidable (_ ∧ _ ∧ _ ∧ ∀ v ∈ pendingKeys s.tr.pending_exit,
    v ∉ activeVisitors s.tr.active_tracks))

instance (s : SysState) : Decidable (LogInv s) :=
  inferInstanceAs (Decidable (_ ∧ _))

/-! ### Concrete scenario used by the witnesses -/

/-- Witness configuration: identical embeddings are perfectly similar,
distinct ones dissimilar; crop 99 has no usable face. -/
def cfgW : Config :=
  { similarity_threshold := 1
    exit_timeout := 3
    sim := fun a b => if a = b then 1 else 0
    get_embedding := fun c => if c = 99 then none else some c }

/-- A frame whose external sinks all succeed. -/
def okFrame (tracks : Option (List (TrackId × Crop))) (t : Time) : FrameEnv :=
  { tracks := tracks
    tEntry := t, tMark := t, tSweep := t
    register_ok := fun _ => true
    save_entry_ok := fun _ => true
    db_entry_ok := fun _ => true
    save_exit_ok := fun _ => true
    db_exit_ok := fun _ => true }

def fW1 : FrameEnv := okFrame (some [(1, 100)]) 1

/-- State with one active track (track 1 → visitor 0) and an open visit. -/
def sW : SysState := ⟨⟨[(0, 100)], 1⟩, ⟨[(1, ⟨0, 100⟩)], [], [0]⟩⟩

def fW8 : FrameEnv := okFrame (some [(2, 100)]) 1

/-- State with visitor 0 pending since time 1 and an open visit. -/
def sC4 : SysState := ⟨⟨[(0, 100)], 1⟩, ⟨[], [(0, ⟨1, 100⟩)], [0]⟩⟩

def fC4 : FrameEnv := okFrame none 4

def fC4b : FrameEnv := okFrame none 5

def fC5fail : FrameEnv := { okFrame (some [(1, 100)]) 1 with save_entry_ok := fun _ => false }

def fC5ok : FrameEnv := okFrame (some [(1, 100)]) 1

def fC9mid : FrameEnv := okFrame none 2

def fC9k : FrameEnv := okFrame (some [(3, 100)]) 3

def fC10 : FrameEnv := okFrame none 10

def fC6 : FrameEnv := okFrame (some [(4, 99)]) 1

def fC6b : FrameEnv := okFrame (some [(4, 100)]) 2

/-! ### Association-list helper lemmas -/

theorem lookup_eq_none_iff {β : Type} (k : Nat) (l : List (Nat × β)) :
    List.lookup k l = none ↔ k ∉ l.map Prod.fst := by
  induction l with
  | nil => simp
  | cons p rest ih =>
    rcases p with ⟨k', b⟩
    by_cases h : k = k'
    · subst h; simp [List.lookup]
    · have hb : (k == k') = false := by simpa using h
      simp [List.lookup, hb, ih, h]

theorem lookup_some_mem {β : Type} {k : Nat} {b : β} {l : List (Nat × β)}
    (h : List.lookup k l = some b) : (k, b) ∈ l := by
  induction l with
  | nil => simp at h
  | cons p rest ih =>
    rcases p with ⟨k', b'⟩
    by_cases hk : k = k'
    · subst hk
      simp [List.lookup] at h
      simp [h]
    · have hb : (k == k') = false := by simpa using hk
      simp only [List.lookup, hb] at h
      exact List.mem_cons_of_mem _ (ih h)

theorem mem_eraseKeyP {l : List (VisitorId × PendingData)} {w : VisitorId}
    {p : VisitorId × PendingData} : p ∈ eraseKeyP l w ↔ p ∈ l ∧ p.1 ≠ w := by
  simp [eraseKeyP]

theorem pendingKeys_eraseKeyP {l : List (VisitorId × PendingData)} {w v : VisitorId} :
    v ∈ pendingKeys (eraseKeyP l w) ↔ v ∈ pendingKeys l ∧ v ≠ w := by
  simp only [pendingKeys, List.mem_map]
  constructor
  · rintro ⟨p, hp, rfl⟩
    rcases mem_eraseKeyP.1 hp with ⟨hmem, hne⟩
    exact ⟨⟨p, hmem, rfl⟩, hne⟩
  · rintro ⟨⟨p, hp, rfl⟩, hne⟩
    exact ⟨p, mem_eraseKeyP.2 ⟨hp, hne⟩, rfl⟩

theorem eraseKeyP_sublist (l : List (VisitorId × PendingData)) (w : VisitorId) :
    (eraseKeyP l w).Sublist l :=
  List.filter_sublist l

theorem pendingKeys_eraseKeyP_nodup {l : List (VisitorId × PendingData)} {w : VisitorId}
    (h : (pendingKeys l).Nodup) : (pendingKeys (eraseKeyP l w)).Nodup :=
  List.Nodup.sublist (List.Sublist.map Prod.fst (eraseKeyP_sublist l w)) h

theorem pendingKeys_insertPending {l : List (VisitorId × PendingData)} {w v : VisitorId}
    {pd : PendingData} :
    v ∈ pendingKeys (insertPending l w pd) ↔ v ∈ pendingKeys l ∨ v = w := by
  simp only [insertPending, pendingKeys, List.map_append, List.mem_append]
  constructor
  · rintro (h | h)
    · exact Or.inl ((pendingKeys_eraseKeyP.1 h).1)
    · simp at h; exact Or.inr h
  · rintro (h | rfl)
    · by_cases hvw : v = w
      · subst hvw; simp
      · exact Or.inl (pendingKeys_eraseKeyP.2 ⟨h, hvw⟩)
    · simp

theorem pendingKeys_insertPending_nodup {l : List (VisitorId × PendingData)} {w : VisitorId}
    {pd : PendingData} (h : (pendingKeys l).Nodup) :
    (pendingKeys (insertPending l w pd)).Nodup := by
  simp only [insertPending, pendingKeys, List.map_append]
  rw [List.nodup_append]
  refine ⟨pendingKeys_eraseKeyP_nodup h, by simp, ?_⟩
  intro v hv hv'
  simp at hv'
  subst hv'
  exact (pendingKeys_eraseKeyP.1 hv).2 rfl

theorem mem_insertPending {l : List (VisitorId × PendingData)} {w : VisitorId}
    {pd : PendingData} {p : VisitorId × PendingData} :
    p ∈ insertPending l w pd ↔ (p ∈ l ∧ p.1 ≠ w) ∨ p = (w, pd) := by
  simp only [insertPending, List.mem_append, List.mem_singleton, mem_eraseKeyP]

theorem addVisible_mem {vs : List VisitorId} {v w : VisitorId} :
    w ∈ addVisible vs v ↔ w ∈ vs ∨ w = v := by
  unfold addVisible
  by_cases h : v ∈ vs
  · simp only [if_pos h]
    constructor
    · exact Or.inl
    · rintro (hw | rfl)
      · exact hw
      · exact h
  · simp [if_neg h]

theorem addVisible_nodup {vs : List VisitorId} {v : VisitorId} (h : vs.Nodup) :
    (addVisible vs v).Nodup := by
  unfold addVisible
  by_cases hv : v ∈ vs
  · simpa [if_pos hv]
  · simp only [if_neg hv]
    rw [List.nodup_append]
    refine ⟨h, List.nodup_singleton v, ?_⟩
    intro x hx
    simp only [List.mem_singleton]
    intro hxv
    exact hv (hxv ▸ hx)

theorem addVisible_subset {vs : List VisitorId} {v : VisitorId} : vs ⊆ addVisible vs v := by
  intro w hw
  exact addVisible_mem.2 (Or.inl hw)

theorem firstCropFor_isSome {active : List (TrackId × TrackData)} {v : VisitorId}
    (h : ∃ p ∈ active, p.2.visitor_id = v) : firstCropFor active v ≠ none := by
  rcases h with ⟨p, hp, hv⟩
  unfold firstCropFor
  cases hfind : active.find? (fun q => q.2.visitor_id = v) with
  | some q => simp
  | none =>
    rw [List.find?_eq_none] at hfind
    exact absurd (by simpa using hv) (by simpa using hfind p hp)

theorem nodup_keys_eq {β : Type} {l : List (Nat × β)} (h : (l.map Prod.fst).Nodup)
    {k : Nat} {b b' : β} (h1 : (k, b) ∈ l) (h2 : (k, b') ∈ l) : b = b' := by
  induction l with
  | nil => simp at h1
  | cons p rest ih =>
    rcases p with ⟨k0, b0⟩
    simp only [List.map_cons, List.nodup_cons] at h
    rcases List.mem_cons.1 h1 with h1 | h1
    · rcases List.mem_cons.1 h2 with h2 | h2
      · rw [Prod.mk.injEq] at h1 h2
        rw [h1.2, h2.2]
      · exfalso
        apply h.1
        rw [Prod.mk.injEq] at h1
        exact h1.1 ▸ List.mem_map_of_mem Prod.fst h2
    · rcases List.mem_cons.1 h2 with h2 | h2
      · exfalso
        apply h.1
        rw [Prod.mk.injEq] at h2
        exact h2.1 ▸ List.mem_map_of_mem Prod.fst h1
      · exact ih h.2 h1 h2

theorem setCrop_keys (l : List (TrackId × TrackData)) (tid : TrackId) (c : Crop) :
    (setCrop l tid c).map Prod.fst = l.map Prod.fst := by
  unfold setCrop
  rw [List.map_map]
  apply List.map_congr_left
  intro p _
  by_cases h : p.1 = tid <;> simp [h]

theorem loop1Step_inv {cfg : Config} {f : FrameEnv} {active0 : List (TrackId × TrackData)}
    {done : List TrackId} {acc : Loop1Out} (hI : L1Inv active0 done acc)
    (tc : TrackId × Crop) :
    L1Inv active0 (done ++ [tc.1]) (loop1Step cfg f acc tc) := by
  unfold loop1Step
  cases hlk : List.lookup tc.1 acc.active with
  | some td =>
    have htd : (tc.1, td) ∈ acc.active := lookup_some_mem hlk
    refine ⟨?_, addVisible_nodup hI.visNodup, ?_, ?_, ?_⟩
    · rw [setCrop_keys]; exact hI.nodupKeys
    · intro p hp hdone
      unfold setCrop at hp
      rcases List.mem_map.1 hp with ⟨q, hq, hpq⟩
      by_cases hqt : q.1 = tc.1
      · rw [if_pos hqt] at hpq
        have : q.2 = td := nodup_keys_eq hI.nodupKeys (hqt ▸ hq) htd
        subst hpq
        simp only
        rw [this]
        exact addVisible_mem.2 (Or.inr rfl)
      · rw [if_neg hqt] at hpq
        subst hpq
        rcases List.mem_append.1 hdone with hdone | hdone
        · exact addVisible_subset (hI.doneVisible q hq hdone)
        · simp at hdone
          exact absurd hdone hqt
    · intro v hv
      rcases addVisible_mem.1 hv with hv | rfl
      · rcases hI.visibleTrack v hv with ⟨p, hp, hpv⟩
        by_cases hpt : p.1 = tc.1
        · exact ⟨(p.1, { p.2 with last_crop := tc.2 }),
            List.mem_map.2 ⟨p, hp, by rw [if_pos hpt]⟩, hpv⟩
        · exact ⟨p, List.mem_map.2 ⟨p, hp, by rw [if_neg hpt]⟩, hpv⟩
      · by_cases hkt : (tc.1 : TrackId) = tc.1
        · exact ⟨(tc.1, { td with last_crop := tc.2 }),
            List.mem_map.2 ⟨(tc.1, td), htd, by simp⟩, rfl⟩
        · exact absurd rfl hkt
    · intro p hp hdone
      unfold setCrop at hp
      rcases List.mem_map.1 hp with ⟨q, hq, hpq⟩
      by_cases hqt : q.1 = tc.1
      · exfalso
        apply hdone
        rw [if_pos hqt] at hpq
        subst hpq
        simp [hqt]
      · rw [if_neg hqt] at hpq
        subst hpq
        exact hI.oldEntry q hq fun hd => hdone (List.mem_append.2 (Or.inl hd))
  | none =>
    have hnk : tc.1 ∉ acc.active.map Prod.fst := (lookup_eq_none_iff _ _).1 hlk
    cases hres : resolveNew cfg f acc.db tc.2 with
    | mk db2 ov =>
      cases ov with
      | none =>
        refine ⟨hI.nodupKeys, hI.visNodup, ?_, hI.visibleTrack, ?_⟩
        · intro p hp hdone
          rcases List.mem_append.1 hdone with hdone | hdone
          · exact hI.doneVisible p hp hdone
          · simp at hdone
            exact absurd (hdone ▸ List.mem_map_of_mem Prod.fst hp) hnk
        · intro p hp hdone
          exact hI.oldEntry p hp fun hd => hdone (List.mem_append.2 (Or.inl hd))
      | some v =>
        refine ⟨?_, addVisible_nodup hI.visNodup, ?_, ?_, ?_⟩
        · rw [List.map_append]
          rw [List.nodup_append]
          refine ⟨hI.nodupKeys, by simp, ?_⟩
          intro x hx
          simp only [List.map_cons, List.map_nil, List.mem_singleton]
          intro hxt
          exact hnk (hxt ▸ hx)
        · intro p hp hdone
          rcases List.mem_append.1 hp with hp | hp
          · rcases List.mem_append.1 hdone with hdone | hdone
            · exact addVisible_subset (hI.doneVisible p hp hdone)
            · simp at hdone
              exact absurd (hdone ▸ List.mem_map_of_mem Prod.fst hp) hnk
          · simp at hp
            subst hp
            exact addVisible_mem.2 (Or.inr rfl)
        · intro w hw
          rcases addVisible_mem.1 hw with hw | hwv
          · rcases hI.visibleTrack w hw with ⟨p, hp, hpv⟩
            exact ⟨p, List.mem_append.2 (Or.inl hp), hpv⟩
          · subst hwv
            exact ⟨(tc.1, ⟨w, tc.2⟩), List.mem_append.2 (Or.inr (by simp)), rfl⟩
        · intro p hp hdone
          rcases List.mem_append.1 hp with hp | hp
          · exact hI.oldEntry p hp fun hd => hdone (List.mem_append.2 (Or.inl hd))
          · exfalso
            apply hdone
            simp at hp
            subst hp
            simp

theorem loop1_fold_inv (cfg : Config) (f : FrameEnv) (active0 : List (TrackId × TrackData)) :
    ∀ (l : List (TrackId × Crop)) (done : List TrackId) (acc : Loop1Out),
      L1Inv active0 done acc →
      L1Inv active0 (done ++ l.map Prod.fst) (l.foldl (loop1Step cfg f) acc) := by
  intro l
  induction l with
  | nil => intro done acc h; simpa using h
  | cons tc rest ih =>
    intro done acc h
    have h1 := @loop1Step_inv cfg f _ _ _ h tc
    have h2 := ih (done ++ [tc.1]) _ h1
    simpa [List.append_assoc] using h2

theorem loop1_inv (cfg : Config) (f : FrameEnv) (db : DbState)
    (active0 : List (TrackId × TrackData)) (h : (active0.map Prod.fst).Nodup) :
    L1Inv active0 ((f.tracks.getD []).map Prod.fst) (loop1 cfg f db active0) := by
  have h0 : L1Inv active0 [] ⟨db, active0, []⟩ :=
    ⟨h, List.nodup_nil, by simp, by simp, by simp⟩
  have := loop1_fold_inv cfg f active0 (f.tracks.getD []) [] _ h0
  simpa [loop1] using this

/-! ### Loop 2 characterisation -/

theorem loop2Step_pending (f : FrameEnv) (active : List (TrackId × TrackData))
    (acc : Loop2Out) (v : VisitorId) :
    (loop2Step f active acc v).pending = eraseKeyP acc.pending v := by
  unfold loop2Step
  by_cases h : v ∈ acc.logged
  · simp [h]
  · simp only [if_neg h]
    cases hc : firstCropFor active v with
    | none => rfl
    | some c => by_cases hs : f.save_entry_ok v <;> simp [hs]

theorem loop2Step_logged (f : FrameEnv) (active : List (TrackId × TrackData))
    (acc : Loop2Out) (v : VisitorId) :
    (loop2Step f active acc v).logged =
      if v ∉ acc.logged ∧ firstCropFor active v ≠ none ∧ f.save_entry_ok v = true then
        acc.logged ++ [v]
      else acc.logged := by
  unfold loop2Step
  by_cases h : v ∈ acc.logged
  · simp [h]
  · simp only [if_neg h]
    cases hc : firstCropFor active v with
    | none => simp [h, hc]
    | some c =>
      by_cases hs : f.save_entry_ok v <;> simp [h, hc, hs]

theorem loop2Step_events (f : FrameEnv) (active : List (TrackId × TrackData))
    (acc : Loop2Out) (v : VisitorId) :
    (loop2Step f active acc v).events =
      acc.events ++
        (if v ∉ acc.logged ∧ firstCropFor active v ≠ none ∧ f.save_entry_ok v = true ∧
            f.db_entry_ok v = true then
          [⟨v, EvKind.entry, f.tEntry⟩]
        else []) := by
  unfold loop2Step
  by_cases h : v ∈ acc.logged
  · simp [h]
  · simp only [if_neg h]
    cases hc : firstCropFor active v with
    | none => simp [h, hc]
    | some c =>
      by_cases hs : f.save_entry_ok v
      · by_cases hd : f.db_entry_ok v <;> simp [h, hc, hs, hd]
      · simp [h, hc, hs]

theorem loop2_fold_pending (f : FrameEnv) (active : List (TrackId × TrackData)) :
    ∀ (vs : List VisitorId) (acc : Loop2Out),
      (vs.foldl (loop2Step f active) acc).pending =
        acc.pending.filter fun p => p.1 ∉ vs := by
  intro vs
  induction vs with
  | nil =>
    intro acc
    simp only [List.foldl_nil]
    rw [(by apply List.filter_congr; intro x _; simp : acc.pending.filter
      (fun p => p.1 ∉ ([] : List VisitorId)) = acc.pending.filter fun _ => true)]
    simp
  | cons v0 rest ih =>
    intro acc
    simp only [List.foldl_cons]
    rw [ih, loop2Step_pending]
    unfold eraseKeyP
    rw [List.filter_filter]
    apply List.filter_congr
    intro x _
    by_cases h1 : x.1 = v0 <;> by_cases h2 : x.1 ∈ rest <;> simp [h1, h2]

theorem loop2_fold_logged_nodup (f : FrameEnv) (active : List (TrackId × TrackData)) :
    ∀ (vs : List VisitorId) (acc : Loop2Out), acc.logged.Nodup →
      (vs.foldl (loop2Step f active) acc).logged.Nodup := by
  intro vs
  induction vs with
  | nil => intro acc h; simpa using h
  | cons v0 rest ih =>
    intro acc h
    simp only [List.foldl_cons]
    apply ih
    rw [loop2Step_logged]
    by_cases hc : v0 ∉ acc.logged ∧ firstCropFor active v0 ≠ none ∧ f.save_entry_ok v0 = true
    · rw [if_pos hc]
      rw [List.nodup_append]
      refine ⟨h, List.nodup_singleton v0, ?_⟩
      intro x hx
      simp only [List.mem_singleton]
      intro hxv
      exact hc.1 (hxv ▸ hx)
    · rwa [if_neg hc]

/-- Per-visitor characterisation of loop 2's effect on
`logged_entry_this_visit` and on the recorded events. -/
theorem loop2_fold_char (f : FrameEnv) (active : List (TrackId × TrackData)) (v : VisitorId) :
    ∀ (vs : List VisitorId), vs.Nodup → ∀ (acc : Loop2Out),
      (v ∈ (vs.foldl (loop2Step f active) acc).logged ↔
        v ∈ acc.logged ∨
          (v ∈ vs ∧ firstCropFor active v ≠ none ∧ f.save_entry_ok v = true)) ∧
      ((vs.foldl (loop2Step f active) acc).events.filter (fun e => e.visitor = v) =
        acc.events.filter (fun e => e.visitor = v) ++
          (if v ∈ vs ∧ v ∉ acc.logged ∧ firstCropFor active v ≠ none ∧
              f.save_entry_ok v = true ∧ f.db_entry_ok v = true then
            [⟨v, EvKind.entry, f.tEntry⟩]
          else [])) := by
  intro vs
  induction vs with
  | nil =>
    intro _ acc
    simp
  | cons v0 rest ih =>
    intro hnd acc
    have hndr : rest.Nodup := (List.nodup_cons.1 hnd).2
    have hv0r : v0 ∉ rest := (List.nodup_cons.1 hnd).1
    simp only [List.foldl_cons]
    rcases ih hndr (loop2Step f active acc v0) with ⟨ihL, ihE⟩
    by_cases hvv : v = v0
    · subst hvv
      constructor
      · rw [ihL, loop2Step_logged]
        constructor
        · rintro (hin | ⟨hr, _⟩)
          · by_cases hc : v ∉ acc.logged ∧ firstCropFor active v ≠ none ∧
                f.save_entry_ok v = true
            · rw [if_pos hc] at hin
              rcases List.mem_append.1 hin with hin | _
              · exact Or.inl hin
              · exact Or.inr ⟨by simp, hc.2.1, hc.2.2⟩
            · rw [if_neg hc] at hin
              exact Or.inl hin
          · exact absurd hr hv0r
        · rintro (hin | ⟨_, hcrop, hsave⟩)
          · refine Or.inl ?_
            by_cases hc : v ∉ acc.logged ∧ firstCropFor active v ≠ none ∧
                f.save_entry_ok v = true
            · rw [if_pos hc]; exact List.mem_append.2 (Or.inl hin)
            · rwa [if_neg hc]
          · refine Or.inl ?_
            by_cases hin : v ∈ acc.logged
            · by_cases hc : v ∉ acc.logged ∧ firstCropFor active v ≠ none ∧
                  f.save_entry_ok v = true
              · rw [if_pos hc]; exact List.mem_append.2 (Or.inl hin)
              · rwa [if_neg hc]
            · rw [if_pos ⟨hin, hcrop, hsave⟩]
              simp
      · rw [ihE]
        have hifr : (if v ∈ rest ∧ v ∉ (loop2Step f active acc v).logged ∧
            firstCropFor active v ≠ none ∧ f.save_entry_ok v = true ∧
            f.db_entry_ok v = true then
            [(⟨v, EvKind.entry, f.tEntry⟩ : Event)] else []) = [] := by
          rw [if_neg]
          rintro ⟨hr, _⟩
          exact hv0r hr
        rw [hifr, List.append_nil, loop2Step_events, List.filter_append]
        congr 1
        by_cases hc : v ∉ acc.logged ∧ firstCropFor active v ≠ none ∧
            f.save_entry_ok v = true ∧ f.db_entry_ok v = true
        · rw [if_pos hc, if_pos ⟨by simp, hc⟩]
          simp
        · rw [if_neg hc, if_neg (by rintro ⟨_, h2⟩; exact hc h2)]
          simp
    · have hlog0 : v ∈ (loop2Step f active acc v0).logged ↔ v ∈ acc.logged := by
        rw [loop2Step_logged]
        by_cases hc : v0 ∉ acc.logged ∧ firstCropFor active v0 ≠ none ∧
            f.save_entry_ok v0 = true
        · rw [if_pos hc]
          simp [hvv]
        · rw [if_neg hc]
      constructor
      · rw [ihL, hlog0]
        simp only [List.mem_cons]
        constructor
        · rintro (h | ⟨h, hc⟩)
          · exact Or.inl h
          · exact Or.inr ⟨Or.inr h, hc⟩
        · rintro (h | ⟨(h | h), hc⟩)
          · exact Or.inl h
          · exact absurd h hvv
          · exact Or.inr ⟨h, hc⟩
      · rw [ihE, loop2Step_events, List.filter_append]
        have hdelta : (if v0 ∉ acc.logged ∧ firstCropFor active v0 ≠ none ∧
            f.save_entry_ok v0 = true ∧ f.db_entry_ok v0 = true then
              [(⟨v0, EvKind.entry, f.tEntry⟩ : Event)] else []).filter
              (fun e => e.visitor = v) = [] := by
          by_cases hc : v0 ∉ acc.logged ∧ firstCropFor active v0 ≠ none ∧
              f.save_entry_ok v0 = true ∧ f.db_entry_ok v0 = true
          · rw [if_pos hc]
            simp [Ne.symm hvv]
          · rw [if_neg hc]
            simp
        rw [hdelta, List.append_nil]
        congr 1
        have hmemc : (v ∈ v0 :: rest) ↔ v ∈ rest := by simp [hvv]
        by_cases hc : v ∈ rest ∧ v ∉ acc.logged ∧ firstCropFor active v ≠ none ∧
            f.save_entry_ok v = true ∧ f.db_entry_ok v = true
        · have hnotin : v ∉ (loop2Step f active acc v0).logged := fun h => hc.2.1 (hlog0.1 h)
          rw [if_pos ⟨hc.1, hnotin, hc.2.2⟩, if_pos ⟨hmemc.2 hc.1, hc.2⟩]
        · rw [if_neg ?_, if_neg ?_]
          · rintro ⟨h1, h2⟩
            exact hc ⟨hmemc.1 h1, h2⟩
          · rintro ⟨h1, h2, h3⟩
            exact hc ⟨h1, fun hh => h2 (hlog0.2 hh), h3⟩

theorem loop3_eq (f : FrameEnv) (active : List (TrackId × TrackData))
    (currentIds : List TrackId) (visible : List VisitorId)
    (pending : List (VisitorId × PendingData)) :
    loop3 f active currentIds visible pending =
      (active.filter fun p => p.1 ∈ currentIds,
       (active.filter fun p => p.1 ∉ currentIds).foldl (loop3Step f visible) pending) :=
  rfl

theorem loop3_fold_keys (f : FrameEnv) (visible : List VisitorId) (v : VisitorId) :
    ∀ (lost : List (TrackId × TrackData)) (pnd : List (VisitorId × PendingData)),
      v ∈ pendingKeys (lost.foldl (loop3Step f visible) pnd) ↔
        v ∈ pendingKeys pnd ∨ (v ∈ activeVisitors lost ∧ v ∉ visible) := by
  intro lost
  induction lost with
  | nil => intro pnd; simp [activeVisitors]
  | cons p rest ih =>
    intro pnd
    simp only [List.foldl_cons]
    rw [ih]
    unfold loop3Step
    by_cases hv : p.2.visitor_id ∈ visible
    · rw [if_pos hv]
      simp only [activeVisitors, List.map_cons, List.mem_cons]
      constructor
      · rintro (h | ⟨h, hn⟩)
        · exact Or.inl h
        · exact Or.inr ⟨Or.inr h, hn⟩
      · rintro (h | ⟨(h | h), hn⟩)
        · exact Or.inl h
        · exact absurd (h ▸ hv) hn
        · exact Or.inr ⟨h, hn⟩
    · rw [if_neg hv]
      rw [pendingKeys_insertPending]
      simp only [activeVisitors, List.map_cons, List.mem_cons]
      constructor
      · rintro ((h | h) | ⟨h, hn⟩)
        · exact Or.inl h
        · exact Or.inr ⟨Or.inl h, h ▸ hv⟩
        · exact Or.inr ⟨Or.inr h, hn⟩
      · rintro (h | ⟨(h | h), hn⟩)
        · exact Or.inl (Or.inl h)
        · exact Or.inl (Or.inr h)
        · exact Or.inr ⟨h, hn⟩

theorem loop3_fold_nodup (f : FrameEnv) (visible : List VisitorId) :
    ∀ (lost : List (TrackId × TrackData)) (pnd : List (VisitorId × PendingData)),
      (pendingKeys pnd).Nodup →
      (pendingKeys (lost.foldl (loop3Step f visible) pnd)).Nodup := by
  intro lost
  induction lost with
  | nil => intro pnd h; simpa using h
  | cons p rest ih =>
    intro pnd h
    simp only [List.foldl_cons]
    apply ih
    unfold loop3Step
    by_cases hv : p.2.visitor_id ∈ visible
    · rwa [if_pos hv]
    · rw [if_neg hv]
      exact pendingKeys_insertPending_nodup h

theorem loop3_fold_origin (f : FrameEnv) (visible : List VisitorId) :
    ∀ (lost : List (TrackId × TrackData)) (pnd : List (VisitorId × PendingData)),
      ∀ q ∈ lost.foldl (loop3Step f visible) pnd,
        q ∈ pnd ∨ (q.2.timestamp = f.tMark ∧ q.1 ∈ activeVisitors lost ∧ q.1 ∉ visible) := by
  intro lost
  induction lost with
  | nil => intro pnd q hq; exact Or.inl (by simpa using hq)
  | cons p rest ih =>
    intro pnd q hq
    simp only [List.foldl_cons] at hq
    rcases ih _ q hq with hq1 | ⟨ht, hm, hn⟩
    · unfold loop3Step at hq1
      by_cases hv : p.2.visitor_id ∈ visible
      · rw [if_pos hv] at hq1
        exact Or.inl hq1
      · rw [if_neg hv] at hq1
        rcases mem_insertPending.1 hq1 with ⟨hmem, _⟩ | rfl
        · exact Or.inl hmem
        · exact Or.inr ⟨rfl, by simp [activeVisitors], hv⟩
    · refine Or.inr ⟨ht, ?_, hn⟩
      simp only [activeVisitors, List.map_cons]
      exact List.mem_cons_of_mem _ hm

theorem loop3_fold_untouched (f : FrameEnv) (visible : List VisitorId) (v : VisitorId)
    (pd : PendingData) :
    ∀ (lost : List (TrackId × TrackData)) (pnd : List (VisitorId × PendingData)),
      v ∉ activeVisitors lost →
      ((v, pd) ∈ lost.foldl (loop3Step f visible) pnd ↔ (v, pd) ∈ pnd) := by
  intro lost
  induction lost with
  | nil => intro pnd _; simp
  | cons p rest ih =>
    intro pnd hv
    have hvr : v ∉ activeVisitors rest := by
      intro h
      apply hv
      simp only [activeVisitors, List.map_cons]
      exact List.mem_cons_of_mem _ h
    have hvp : p.2.visitor_id ≠ v := by
      intro h
      exact hv (by simp [activeVisitors, h])
    simp only [List.foldl_cons]
    rw [ih _ hvr]
    unfold loop3Step
    by_cases hvis : p.2.visitor_id ∈ visible
    · rw [if_pos hvis]
    · rw [if_neg hvis]
      rw [mem_insertPending]
      constructor
      · rintro (⟨h, _⟩ | h)
        · exact h
        · exfalso
          apply hvp
          have := congrArg Prod.fst h
          simpa using this.symm
      · intro h
        exact Or.inl ⟨h, fun hh => hvp hh.symm⟩

theorem loop4_fold (cfg : Config) (f : FrameEnv) :
    ∀ (l q : List (VisitorId × PendingData)) (lg : List VisitorId) (ev : List Event),
      (l.foldl (loop4Step cfg f) ⟨q, lg, ev⟩).pending =
          (q.filter fun p => p.1 ∉ expiredKeys cfg f l) ∧
        (l.foldl (loop4Step cfg f) ⟨q, lg, ev⟩).logged =
          (lg.filter fun v => v ∉ expiredKeys cfg f l) ∧
        (l.foldl (loop4Step cfg f) ⟨q, lg, ev⟩).events =
          ev ++ l.flatMap (exitEvts cfg f) := by
  intro l
  induction l with
  | nil =>
    intro q lg ev
    have hek : expiredKeys cfg f [] = [] := rfl
    refine ⟨?_, ?_, by simp⟩ <;> simp [hek]
  | cons p rest ih =>
    intro q lg ev
    simp only [List.foldl_cons]
    by_cases hexp : expiredAt cfg f p
    · have hstep : loop4Step cfg f ⟨q, lg, ev⟩ p =
          ⟨eraseKeyP q p.1, lg.filter fun v => v ≠ p.1,
           ev ++ (if f.save_exit_ok p.1 then
             (if f.db_exit_ok p.1 then [⟨p.1, EvKind.exit, f.tSweep⟩] else [])
           else [])⟩ := by
        unfold loop4Step
        rw [if_pos hexp]
      rw [hstep]
      rcases ih (eraseKeyP q p.1) (lg.filter fun v => v ≠ p.1)
        (ev ++ (if f.save_exit_ok p.1 then
          (if f.db_exit_ok p.1 then [⟨p.1, EvKind.exit, f.tSweep⟩] else [])
        else [])) with ⟨h1, h2, h3⟩
      have hkeys : expiredKeys cfg f (p :: rest) = p.1 :: expiredKeys cfg f rest := by
        simp [expiredKeys, List.filter_cons, hexp]
      refine ⟨?_, ?_, ?_⟩
      · rw [h1]
        unfold eraseKeyP
        rw [List.filter_filter, hkeys]
        apply List.filter_congr
        intro x _
        by_cases h1x : x.1 = p.1 <;> by_cases h2x : x.1 ∈ expiredKeys cfg f rest <;>
          simp [h1x, h2x]
      · rw [h2, List.filter_filter, hkeys]
        apply List.filter_congr
        intro x _
        by_cases h1x : x = p.1 <;> by_cases h2x : x ∈ expiredKeys cfg f rest <;>
          simp [h1x, h2x]
      · rw [h3, List.flatMap_cons, List.append_assoc]
        congr 2
        unfold exitEvts
        rw [if_pos hexp]
    · have hstep : loop4Step cfg f ⟨q, lg, ev⟩ p = ⟨q, lg, ev⟩ := by
        unfold loop4Step
        rw [if_neg hexp]
      rw [hstep]
      rcases ih q lg ev with ⟨h1, h2, h3⟩
      have hkeys : expiredKeys cfg f (p :: rest) = expiredKeys cfg f rest := by
        simp [expiredKeys, List.filter_cons, hexp]
      have hevts : exitEvts cfg f p = [] := by
        unfold exitEvts
        rw [if_neg hexp]
      refine ⟨by rw [h1, hkeys], by rw [h2, hkeys], ?_⟩
      rw [h3, List.flatMap_cons, hevts, List.nil_append]

theorem update_frame_active (cfg : Config) (f : FrameEnv) (s : SysState) :
    (update_frame cfg f s).1.tr.active_tracks =
      (frameO1 cfg f s).active.filter fun p => p.1 ∈ (f.tracks.getD []).map Prod.fst :=
  rfl

theorem update_frame_db (cfg : Config) (f : FrameEnv) (s : SysState) :
    (update_frame cfg f s).1.db = (frameO1 cfg f s).db :=
  rfl

theorem update_frame_pending (cfg : Config) (f : FrameEnv) (s : SysState) :
    (update_frame cfg f s).1.tr.pending_exit =
      (framePending3 cfg f s).filter fun p =>
        p.1 ∉ expiredKeys cfg f (framePending3 cfg f s) :=
  (loop4_fold cfg f (framePending3 cfg f s) (framePending3 cfg f s)
    (frameO2 cfg f s).logged (frameO2 cfg f s).events).1

theorem update_frame_logged (cfg : Config) (f : FrameEnv) (s : SysState) :
    (update_frame cfg f s).1.tr.logged_entry_this_visit =
      (frameO2 cfg f s).logged.filter fun v =>
        v ∉ expiredKeys cfg f (framePending3 cfg f s) :=
  (loop4_fold cfg f (framePending3 cfg f s) (framePending3 cfg f s)
    (frameO2 cfg f s).logged (frameO2 cfg f s).events).2.1

theorem update_frame_events (cfg : Config) (f : FrameEnv) (s : SysState) :
    (update_frame cfg f s).2 =
      (frameO2 cfg f s).events ++ (framePending3 cfg f s).flatMap (exitEvts cfg f) :=
  (loop4_fold cfg f (framePending3 cfg f s) (framePending3 cfg f s)
    (frameO2 cfg f s).logged (frameO2 cfg f s).events).2.2

theorem visibleOf_eq (cfg : Config) (f : FrameEnv) (s : SysState) :
    visibleOf cfg f s = (frameO1 cfg f s).visible :=
  rfl

theorem frameO2_pending (cfg : Config) (f : FrameEnv) (s : SysState) :
    (frameO2 cfg f s).pending =
      s.tr.pending_exit.filter fun p => p.1 ∉ (frameO1 cfg f s).visible :=
  loop2_fold_pending f (frameO1 cfg f s).active (frameO1 cfg f s).visible _

/-! ### Small observations about keys and events -/

theorem mem_pendingKeys_iff {l : List (VisitorId × PendingData)} {v : VisitorId} :
    v ∈ pendingKeys l ↔ ∃ pd, (v, pd) ∈ l := by
  simp only [pendingKeys, List.mem_map]
  constructor
  · rintro ⟨p, hp, rfl⟩
    exact ⟨p.2, hp⟩
  · rintro ⟨pd, hpd⟩
    exact ⟨(v, pd), hpd, rfl⟩

theorem mem_expiredKeys_iff {cfg : Config} {f : FrameEnv} {l : List (VisitorId × PendingData)}
    {v : VisitorId} :
    v ∈ expiredKeys cfg f l ↔ ∃ pd, (v, pd) ∈ l ∧ expiredAt cfg f (v, pd) := by
  simp only [expiredKeys, List.mem_map, List.mem_filter]
  constructor
  · rintro ⟨p, ⟨hp, hexp⟩, rfl⟩
    exact ⟨p.2, hp, by simpa using hexp⟩
  · rintro ⟨pd, hpd, hexp⟩
    exact ⟨(v, pd), ⟨hpd, by simpa using hexp⟩, rfl⟩

theorem expiredKeys_subset (cfg : Config) (f : FrameEnv) (l : List (VisitorId × PendingData)) :
    expiredKeys cfg f l ⊆ pendingKeys l := by
  intro v hv
  rcases mem_expiredKeys_iff.1 hv with ⟨pd, hpd, _⟩
  exact mem_pendingKeys_iff.2 ⟨pd, hpd⟩

theorem visitorKinds_append (ev1 ev2 : List Event) (v : VisitorId) :
    visitorKinds (ev1 ++ ev2) v = visitorKinds ev1 v ++ visitorKinds ev2 v := by
  simp [visitorKinds, List.filter_append]

theorem exitEvts_visitor {cfg : Config} {f : FrameEnv} {p : VisitorId × PendingData} :
    ∀ e ∈ exitEvts cfg f p, e.visitor = p.1 := by
  intro e he
  unfold exitEvts at he
  by_cases h1 : expiredAt cfg f p
  · rw [if_pos h1] at he
    by_cases h2 : f.save_exit_ok p.1
    · rw [if_pos h2] at he
      by_cases h3 : f.db_exit_ok p.1
      · rw [if_pos h3] at he
        simp at he
        rw [he]
      · rw [if_neg h3] at he
        simp at he
    · rw [if_neg h2] at he
      simp at he
  · rw [if_neg h1] at he
    simp at he

theorem flatMap_exit_filter_notmem (cfg : Config) (f : FrameEnv) (v : VisitorId) :
    ∀ (l : List (VisitorId × PendingData)), v ∉ pendingKeys l →
      (l.flatMap (exitEvts cfg f)).filter (fun e => e.visitor = v) = [] := by
  intro l
  induction l with
  | nil => intro _; simp
  | cons p rest ih =>
    intro hv
    have hvr : v ∉ pendingKeys rest := by
      intro h
      exact hv (by simp only [pendingKeys, List.map_cons]; exact List.mem_cons_of_mem _ h)
    have hvp : p.1 ≠ v := by
      intro h
      exact hv (by simp [pendingKeys, h])
    rw [List.flatMap_cons, List.filter_append, ih hvr, List.append_nil]
    rw [List.filter_eq_nil_iff]
    intro e he
    simp only [decide_eq_true_eq]
    intro hev
    exact hvp ((exitEvts_visitor e he) ▸ hev)

theorem flatMap_exit_filter_mem (cfg : Config) (f : FrameEnv) {v : VisitorId}
    {pd : PendingData} :
    ∀ (l : List (VisitorId × PendingData)), (pendingKeys l).Nodup → (v, pd) ∈ l →
      (l.flatMap (exitEvts cfg f)).filter (fun e => e.visitor = v) = exitEvts cfg f (v, pd) := by
  intro l
  induction l with
  | nil => intro _ h; simp at h
  | cons p rest ih =>
    intro hnd hmem
    have hnd1 : (pendingKeys rest).Nodup := by
      simp only [pendingKeys, List.map_cons, List.nodup_cons] at hnd
      exact hnd.2
    have hhead : p.1 ∉ pendingKeys rest := by
      simp only [pendingKeys, List.map_cons, List.nodup_cons] at hnd
      exact hnd.1
    rw [List.flatMap_cons, List.filter_append]
    rcases List.mem_cons.1 hmem with rfl | hmem'
    · have hself : (exitEvts cfg f (v, pd)).filter (fun e => e.visitor = v) =
          exitEvts cfg f (v, pd) := by
        rw [List.filter_eq_self]
        intro e he
        simp only [decide_eq_true_eq]
        exact exitEvts_visitor e he
      rw [hself, flatMap_exit_filter_notmem cfg f v rest hhead, List.append_nil]
    · have hpv : p.1 ≠ v := by
        intro h
        exact hhead (h ▸ mem_pendingKeys_iff.2 ⟨pd, hmem'⟩)
      have hpe : (exitEvts cfg f p).filter (fun e => e.visitor = v) = [] := by
        rw [List.filter_eq_nil_iff]
        intro e he
        simp only [decide_eq_true_eq]
        intro hev
        exact hpv ((exitEvts_visitor e he) ▸ hev)
      rw [hpe, List.nil_append]
      exact ih hnd1 hmem'

/-! ### Frame analysis -/

theorem pendingKeys_filter_key {l : List (VisitorId × PendingData)} {vis : List VisitorId}
    {v : VisitorId} :
    v ∈ pendingKeys (l.filter fun p => p.1 ∉ vis) ↔ v ∈ pendingKeys l ∧ v ∉ vis := by
  constructor
  · intro h
    rcases mem_pendingKeys_iff.1 h with ⟨pd, hpd⟩
    rcases List.mem_filter.1 hpd with ⟨hmem, hdec⟩
    exact ⟨mem_pendingKeys_iff.2 ⟨pd, hmem⟩, by simpa using hdec⟩
  · rintro ⟨h, hn⟩
    rcases mem_pendingKeys_iff.1 h with ⟨pd, hpd⟩
    exact mem_pendingKeys_iff.2 ⟨pd, List.mem_filter.2 ⟨hpd, by simpa using hn⟩⟩

theorem pendingKeys_filter_nodup {l : List (VisitorId × PendingData)}
    {q : VisitorId × PendingData → Bool} (h : (pendingKeys l).Nodup) :
    (pendingKeys (l.filter q)).Nodup :=
  List.Nodup.sublist (List.Sublist.map Prod.fst (List.filter_sublist l)) h

theorem frame_visible_nodup (cfg : Config) (f : FrameEnv) (s : SysState)
    (h : (s.tr.active_tracks.map Prod.fst).Nodup) : (frameO1 cfg f s).visible.Nodup :=
  (loop1_inv cfg f s.db s.tr.active_tracks h).visNodup

theorem frame_visible_crop (cfg : Config) (f : FrameEnv) (s : SysState)
    (h : (s.tr.active_tracks.map Prod.fst).Nodup) :
    ∀ v ∈ (frameO1 cfg f s).visible, firstCropFor (frameO1 cfg f s).active v ≠ none :=
  fun v hv =>
    firstCropFor_isSome ((loop1_inv cfg f s.db s.tr.active_tracks h).visibleTrack v hv)

theorem framePending3_keys (cfg : Config) (f : FrameEnv) (s : SysState) (v : VisitorId) :
    v ∈ pendingKeys (framePending3 cfg f s) ↔
      ((v ∈ pendingKeys s.tr.pending_exit ∧ v ∉ (frameO1 cfg f s).visible) ∨
        (v ∈ activeVisitors (frameLost cfg f s) ∧ v ∉ (frameO1 cfg f s).visible)) := by
  unfold framePending3
  rw [loop3_fold_keys, frameO2_pending, pendingKeys_filter_key]

theorem framePending3_nodup (cfg : Config) (f : FrameEnv) (s : SysState)
    (h : (pendingKeys s.tr.pending_exit).Nodup) :
    (pendingKeys (framePending3 cfg f s)).Nodup := by
  unfold framePending3
  apply loop3_fold_nodup
  rw [frameO2_pending]
  exact pendingKeys_filter_nodup h

theorem framePending3_not_visible (cfg : Config) (f : FrameEnv) (s : SysState) :
    ∀ v ∈ pendingKeys (framePending3 cfg f s), v ∉ (frameO1 cfg f s).visible := by
  intro v hv
  rcases (framePending3_keys cfg f s v).1 hv with ⟨_, h⟩ | ⟨_, h⟩ <;> exact h

theorem frame_kept_visible (cfg : Config) (f : FrameEnv) (s : SysState)
    (h : (s.tr.active_tracks.map Prod.fst).Nodup) :
    ∀ p ∈ (update_frame cfg f s).1.tr.active_tracks,
      p.2.visitor_id ∈ (frameO1 cfg f s).visible := by
  intro p hp
  rw [update_frame_active] at hp
  rcases List.mem_filter.1 hp with ⟨hmem, hdec⟩
  exact (loop1_inv cfg f s.db s.tr.active_tracks h).doneVisible p hmem (by simpa using hdec)

theorem frameLost_old (cfg : Config) (f : FrameEnv) (s : SysState)
    (h : (s.tr.active_tracks.map Prod.fst).Nodup) :
    ∀ p ∈ frameLost cfg f s, p ∈ s.tr.active_tracks := by
  intro p hp
  rcases List.mem_filter.1 hp with ⟨hmem, hdec⟩
  exact (loop1_inv cfg f s.db s.tr.active_tracks h).oldEntry p hmem (by simpa using hdec)

theorem update_WF (cfg : Config) (f : FrameEnv) (s : SysState) (h : WF s) :
    WF (update_frame cfg f s).1 := by
  obtain ⟨hndA, hndP, hndL, _⟩ := h
  have hI := loop1_inv cfg f s.db s.tr.active_tracks hndA
  refine ⟨?_, ?_, ?_, ?_⟩
  · rw [update_frame_active]
    exact List.Nodup.sublist
      (List.Sublist.map Prod.fst (List.filter_sublist (frameO1 cfg f s).active)) hI.nodupKeys
  · rw [update_frame_pending]
    exact pendingKeys_filter_nodup (framePending3_nodup cfg f s hndP)
  · rw [update_frame_logged]
    exact List.Nodup.filter _ (loop2_fold_logged_nodup f _ _ _ hndL)
  · intro v hv hva
    rw [update_frame_pending] at hv
    rcases List.mem_filter.1 (mem_pendingKeys_iff.1 hv).choose_spec with ⟨hmem, _⟩
    have hvp3 : v ∈ pendingKeys (framePending3 cfg f s) :=
      mem_pendingKeys_iff.2 ⟨_, hmem⟩
    rcases List.mem_map.1 hva with ⟨p, hp, rfl⟩
    exact framePending3_not_visible cfg f s _ hvp3 (frame_kept_visible cfg f s hndA p hp)

theorem frame_logged2_iff (cfg : Config) (f : FrameEnv) (s : SysState)
    (h : (s.tr.active_tracks.map Prod.fst).Nodup) (v : VisitorId) :
    v ∈ (frameO2 cfg f s).logged ↔
      (v ∈ s.tr.logged_entry_this_visit ∨
        (v ∈ (frameO1 cfg f s).visible ∧ f.save_entry_ok v = true)) := by
  have hc := (loop2_fold_char f (frameO1 cfg f s).active v (frameO1 cfg f s).visible
    (frame_visible_nodup cfg f s h)
    ⟨s.tr.pending_exit, s.tr.logged_entry_this_visit, []⟩).1
  unfold frameO2 loop2
  rw [hc]
  constructor
  · rintro (hin | ⟨hvis, _, hsave⟩)
    · exact Or.inl hin
    · exact Or.inr ⟨hvis, hsave⟩
  · rintro (hin | ⟨hvis, hsave⟩)
    · exact Or.inl hin
    · exact Or.inr ⟨hvis, frame_visible_crop cfg f s h v hvis, hsave⟩

theorem frame_entry_filter (cfg : Config) (f : FrameEnv) (s : SysState)
    (h : (s.tr.active_tracks.map Prod.fst).Nodup) (v : VisitorId) :
    (frameO2 cfg f s).events.filter (fun e => e.visitor = v) =
      (if v ∈ (frameO1 cfg f s).visible ∧ v ∉ s.tr.logged_entry_this_visit ∧
          f.save_entry_ok v = true ∧ f.db_entry_ok v = true then
        [⟨v, EvKind.entry, f.tEntry⟩]
      else []) := by
  have hc := (loop2_fold_char f (frameO1 cfg f s).active v (frameO1 cfg f s).visible
    (frame_visible_nodup cfg f s h)
    ⟨s.tr.pending_exit, s.tr.logged_entry_this_visit, []⟩).2
  unfold frameO2 loop2
  rw [hc]
  simp only [List.filter_nil, List.nil_append]
  by_cases hcond : v ∈ (frameO1 cfg f s).visible ∧ v ∉ s.tr.logged_entry_this_visit ∧
      f.save_entry_ok v = true ∧ f.db_entry_ok v = true
  · rw [if_pos hcond, if_pos ⟨hcond.1, hcond.2.1,
      frame_visible_crop cfg f s h v hcond.1, hcond.2.2⟩]
  · rw [if_neg hcond, if_neg ?_]
    rintro ⟨h1, h2, _, h4⟩
    exact hcond ⟨h1, h2, h4⟩

theorem frame_lost_logged (cfg : Config) (f : FrameEnv) (s : SysState)
    (hndA : (s.tr.active_tracks.map Prod.fst).Nodup) (hL : LogInv s) :
    ∀ v ∈ activeVisitors (frameLost cfg f s), v ∈ s.tr.logged_entry_this_visit := by
  intro v hv
  rcases List.mem_map.1 hv with ⟨p, hp, rfl⟩
  exact hL.1 _ (List.mem_map.2 ⟨p, frameLost_old cfg f s hndA p hp, rfl⟩)

theorem framePending3_logged (cfg : Config) (f : FrameEnv) (s : SysState)
    (hndA : (s.tr.active_tracks.map Prod.fst).Nodup) (hL : LogInv s) :
    ∀ v ∈ pendingKeys (framePending3 cfg f s), v ∈ s.tr.logged_entry_this_visit := by
  intro v hv
  rcases (framePending3_keys cfg f s v).1 hv with ⟨h, _⟩ | ⟨h, _⟩
  · exact hL.2 v h
  · exact frame_lost_logged cfg f s hndA hL v h

theorem update_logged_iff (cfg : Config) (f : FrameEnv) (s : SysState) (v : VisitorId) :
    v ∈ (update_frame cfg f s).1.tr.logged_entry_this_visit ↔
      v ∈ (frameO2 cfg f s).logged ∧ v ∉ expiredKeys cfg f (framePending3 cfg f s) := by
  rw [update_frame_logged]
  simp [List.mem_filter]

/-- Per-visitor transition of one frame update under succeeding sinks:
a visitor either gets no event (open/closed status unchanged), exactly
one entry event (visit opens), or exactly one exit event (visit closes). -/
theorem update_step_cases (cfg : Config) (f : FrameEnv) (s : SysState)
    (hWF : WF s) (hL : LogInv s) (hok : AllOk f) (v : VisitorId) :
    (visitorKinds (update_frame cfg f s).2 v = [] ∧
      (v ∈ (update_frame cfg f s).1.tr.logged_entry_this_visit ↔
        v ∈ s.tr.logged_entry_this_visit)) ∨
    (visitorKinds (update_frame cfg f s).2 v = [EvKind.entry] ∧
      v ∉ s.tr.logged_entry_this_visit ∧
      v ∈ (update_frame cfg f s).1.tr.logged_entry_this_visit) ∨
    (visitorKinds (update_frame cfg f s).2 v = [EvKind.exit] ∧
      v ∈ s.tr.logged_entry_this_visit ∧
      v ∉ (update_frame cfg f s).1.tr.logged_entry_this_visit) := by
  obtain ⟨hreg, hsave, hdbe, hsavex, hdbx⟩ := hok
  obtain ⟨hndA, hndP, hndL, hdisj⟩ := hWF
  have hp3nd := framePending3_nodup cfg f s hndP
  have hkinds : visitorKinds (update_frame cfg f s).2 v =
      visitorKinds (frameO2 cfg f s).events v ++
        visitorKinds ((framePending3 cfg f s).flatMap (exitEvts cfg f)) v := by
    rw [update_frame_events, visitorKinds_append]
  have hentry := frame_entry_filter cfg f s hndA v
  have hlog2 := frame_logged2_iff cfg f s hndA v
  by_cases hvis : v ∈ (frameO1 cfg f s).visible
  · have hnp3 : v ∉ pendingKeys (framePending3 cfg f s) :=
      fun hmem => framePending3_not_visible cfg f s v hmem hvis
    have hnexp : v ∉ expiredKeys cfg f (framePending3 cfg f s) :=
      fun hmem => hnp3 (expiredKeys_subset cfg f _ hmem)
    have hexitk : visitorKinds ((framePending3 cfg f s).flatMap (exitEvts cfg f)) v = [] := by
      unfold visitorKinds
      rw [flatMap_exit_filter_notmem cfg f v _ hnp3]
      rfl
    have hafter : v ∈ (update_frame cfg f s).1.tr.logged_entry_this_visit ↔
        v ∈ (frameO2 cfg f s).logged := by
      rw [update_logged_iff]
      exact ⟨fun h => h.1, fun h => ⟨h, hnexp⟩⟩
    by_cases hlg : v ∈ s.tr.logged_entry_this_visit
    · left
      constructor
      · rw [hkinds, hexitk, List.append_nil]
        unfold visitorKinds
        rw [hentry, if_neg (by rintro ⟨_, h2, _⟩; exact h2 hlg)]
        rfl
      · rw [hafter, hlog2]
        simp [hlg]
    · right; left
      refine ⟨?_, hlg, ?_⟩
      · rw [hkinds, hexitk, List.append_nil]
        unfold visitorKinds
        rw [hentry, if_pos ⟨hvis, hlg, hsave v, hdbe v⟩]
        rfl
      · rw [hafter, hlog2]
        exact Or.inr ⟨hvis, hsave v⟩
  · have hef : visitorKinds (frameO2 cfg f s).events v = [] := by
      unfold visitorKinds
      rw [hentry, if_neg (fun hcond => hvis hcond.1)]
      rfl
    have hlog2v : v ∈ (frameO2 cfg f s).logged ↔ v ∈ s.tr.logged_entry_this_visit := by
      rw [hlog2]
      constructor
      · rintro (h | ⟨h, _⟩)
        · exact h
        · exact absurd h hvis
      · exact Or.inl
    by_cases hp3 : v ∈ pendingKeys (framePending3 cfg f s)
    · obtain ⟨pd, hpd⟩ := mem_pendingKeys_iff.1 hp3
      by_cases hexp : expiredAt cfg f (v, pd)
      · right; right
        have hvexp : v ∈ expiredKeys cfg f (framePending3 cfg f s) :=
          mem_expiredKeys_iff.2 ⟨pd, hpd, hexp⟩
        refine ⟨?_, ?_, ?_⟩
        · rw [hkinds, hef, List.nil_append]
          unfold visitorKinds
          rw [flatMap_exit_filter_mem cfg f _ hp3nd hpd]
          unfold exitEvts
          rw [if_pos hexp, if_pos (hsavex v), if_pos (hdbx v)]
          rfl
        · exact framePending3_logged cfg f s hndA hL v hp3
        · rw [update_logged_iff]
          rintro ⟨_, hne⟩
          exact hne hvexp
      · left
        have hnexp : v ∉ expiredKeys cfg f (framePending3 cfg f s) := by
          intro hmem
          rcases mem_expiredKeys_iff.1 hmem with ⟨pd2, hpd2, hexp2⟩
          have hpdeq : pd2 = pd := nodup_keys_eq hp3nd hpd2 hpd
          exact hexp (hpdeq ▸ hexp2)
        constructor
        · rw [hkinds, hef, List.nil_append]
          unfold visitorKinds
          rw [flatMap_exit_filter_mem cfg f _ hp3nd hpd]
          unfold exitEvts
          rw [if_neg hexp]
          rfl
        · rw [update_logged_iff]
          constructor
          · rintro ⟨h, _⟩
            exact hlog2v.1 h
          · intro h
            exact ⟨hlog2v.2 h, hnexp⟩
    · left
      have hnexp : v ∉ expiredKeys cfg f (framePending3 cfg f s) :=
        fun hmem => hp3 (expiredKeys_subset cfg f _ hmem)
      constructor
      · rw [hkinds, hef, List.nil_append]
        unfold visitorKinds
        rw [flatMap_exit_filter_notmem cfg f v _ hp3]
        rfl
      · rw [update_logged_iff]
        constructor
        · rintro ⟨h, _⟩
          exact hlog2v.1 h
        · intro h
          exact ⟨hlog2v.2 h, hnexp⟩

theorem update_LogInv (cfg : Config) (f : FrameEnv) (s : SysState)
    (hWF : WF s) (hL : LogInv s) (hok : AllOk f) : LogInv (update_frame cfg f s).1 := by
  obtain ⟨hreg, hsave, hdbe, hsavex, hdbx⟩ := hok
  obtain ⟨hndA, hndP, hndL, hdisj⟩ := hWF
  constructor
  · intro v hv
    rcases List.mem_map.1 hv with ⟨p, hp, rfl⟩
    have hvis := frame_kept_visible cfg f s hndA p hp
    have hnp3 : p.2.visitor_id ∉ pendingKeys (framePending3 cfg f s) :=
      fun hmem => framePending3_not_visible cfg f s _ hmem hvis
    have hnexp : p.2.visitor_id ∉ expiredKeys cfg f (framePending3 cfg f s) :=
      fun hmem => hnp3 (expiredKeys_subset cfg f _ hmem)
    rw [update_logged_iff]
    exact ⟨(frame_logged2_iff cfg f s hndA _).2 (Or.inr ⟨hvis, hsave _⟩), hnexp⟩
  · intro v hv
    rw [update_frame_pending] at hv
    rcases mem_pendingKeys_iff.1 hv with ⟨pd, hpd⟩
    rcases List.mem_filter.1 hpd with ⟨hmem, hdec⟩
    have hp3 : v ∈ pendingKeys (framePending3 cfg f s) := mem_pendingKeys_iff.2 ⟨pd, hmem⟩
    have hnexp : v ∉ expiredKeys cfg f (framePending3 cfg f s) := by simpa using hdec
    rw [update_logged_iff]
    exact ⟨(frame_logged2_iff cfg f s hndA v).2
      (Or.inl (framePending3_logged cfg f s hndA hL v hp3)), hnexp⟩

/-! ### Run-level invariant: per-visitor alternation -/

theorem vchar_nil {op : Prop} (h : ¬op) : VChar [] op := by
  refine ⟨?_, ?_, ?_, ?_⟩
  · intro i hi
    simp at hi
  · simp [h]
  · intro h'
    exact absurd h' h
  · intro _
    rfl

theorem vchar_congr {l : List EvKind} {op op' : Prop} (h : VChar l op) (hiff : op ↔ op') :
    VChar l op' := by
  refine ⟨h.alt, ?_, ?_, ?_⟩
  · rw [← hiff]
    exact h.parity
  · intro h'
    exact h.counts_open (hiff.2 h')
  · intro h'
    exact h.counts_closed (fun ho => h' (hiff.1 ho))

theorem vchar_append_entry {l : List EvKind} {op op' : Prop} (h : VChar l op) (hno : ¬op)
    (hyes : op') : VChar (l ++ [EvKind.entry]) op' := by
  have hne : l.length % 2 ≠ 1 := fun hh => hno (h.parity.2 hh)
  have hlen : l.length % 2 = 0 := by omega
  refine ⟨?_, ?_, ?_, ?_⟩
  · intro i hi
    rw [List.length_append, List.length_singleton] at hi
    by_cases hil : i < l.length
    · rw [List.getElem_append_left hil]
      exact h.alt i hil
    · have hi' : i = l.length := by omega
      rw [List.getElem_concat_length l _ i hi']
      have hmod : i % 2 = 0 := by omega
      rw [if_pos hmod]
  · constructor
    · intro _
      rw [List.length_append, List.length_singleton]
      omega
    · intro _
      exact hyes
  · intro _
    have hc := h.counts_closed hno
    have h1 : ([EvKind.entry] : List EvKind).count EvKind.entry = 1 := by decide
    have h2 : ([EvKind.entry] : List EvKind).count EvKind.exit = 0 := by decide
    rw [List.count_append, List.count_append, h1, h2, hc]
  · intro h'
    exact absurd hyes h'

theorem vchar_append_exit {l : List EvKind} {op op' : Prop} (h : VChar l op) (hyes : op)
    (hno : ¬op') : VChar (l ++ [EvKind.exit]) op' := by
  have hlen : l.length % 2 = 1 := h.parity.1 hyes
  refine ⟨?_, ?_, ?_, ?_⟩
  · intro i hi
    rw [List.length_append, List.length_singleton] at hi
    by_cases hil : i < l.length
    · rw [List.getElem_append_left hil]
      exact h.alt i hil
    · have hi' : i = l.length := by omega
      rw [List.getElem_concat_length l _ i hi']
      have hmod : ¬i % 2 = 0 := by omega
      rw [if_neg hmod]
  · constructor
    · intro ho
      exact absurd ho hno
    · intro hlen'
      rw [List.length_append, List.length_singleton] at hlen'
      omega
  · intro h'
    exact absurd h' hno
  · intro _
    have hc := h.counts_open hyes
    have h1 : ([EvKind.exit] : List EvKind).count EvKind.entry = 0 := by decide
    have h2 : ([EvKind.exit] : List EvKind).count EvKind.exit = 1 := by decide
    rw [List.count_append, List.count_append, h1, h2, hc]

theorem vchar_update (cfg : Config) (f : FrameEnv) (s : SysState) (hWF : WF s)
    (hL : LogInv s) (hok : AllOk f) (v : VisitorId) {l : List EvKind}
    (h : VChar l (v ∈ s.tr.logged_entry_this_visit)) :
    VChar (l ++ visitorKinds (update_frame cfg f s).2 v)
      (v ∈ (update_frame cfg f s).1.tr.logged_entry_this_visit) := by
  rcases update_step_cases cfg f s hWF hL hok v with
    ⟨hk, hiff⟩ | ⟨hk, hpre, hpost⟩ | ⟨hk, hpre, hpost⟩
  · rw [hk, List.append_nil]
    exact vchar_congr h hiff.symm
  · rw [hk]
    exact vchar_append_entry h hpre hpost
  · rw [hk]
    exact vchar_append_exit h hpre hpost

theorem runFrames_cons (cfg : Config) (f : FrameEnv) (rest : List FrameEnv) (s : SysState) :
    runFrames cfg (f :: rest) s =
      ((runFrames cfg rest (update_frame cfg f s).1).1,
       (update_frame cfg f s).2 ++ (runFrames cfg rest (update_frame cfg f s).1).2) :=
  rfl

theorem runFrames_sound (cfg : Config) :
    ∀ (fs : List FrameEnv) (s : SysState), (∀ f ∈ fs, AllOk f) → WF s → LogInv s →
      WF (runFrames cfg fs s).1 ∧ LogInv (runFrames cfg fs s).1 ∧
      ∀ (v : VisitorId) (l : List EvKind), VChar l (v ∈ s.tr.logged_entry_this_visit) →
        VChar (l ++ visitorKinds (runFrames cfg fs s).2 v)
          (v ∈ (runFrames cfg fs s).1.tr.logged_entry_this_visit) := by
  intro fs
  induction fs with
  | nil =>
    intro s _ hWF hL
    refine ⟨hWF, hL, fun v l h => ?_⟩
    simpa [runFrames, visitorKinds] using h
  | cons f rest ih =>
    intro s hok hWF hL
    have hokf : AllOk f := hok f (by simp)
    have hokr : ∀ g ∈ rest, AllOk g := fun g hg => hok g (List.mem_cons_of_mem _ hg)
    have hWF1 := update_WF cfg f s hWF
    have hL1 := update_LogInv cfg f s hWF hL hokf
    rcases ih (update_frame cfg f s).1 hokr hWF1 hL1 with ⟨hWF2, hL2, hV2⟩
    rw [runFrames_cons]
    refine ⟨hWF2, hL2, ?_⟩
    intro v l h
    rw [visitorKinds_append, ← List.append_assoc]
    exact hV2 v (l ++ visitorKinds (update_frame cfg f s).2 v)
      (vchar_update cfg f s hWF hL hokf v h)

theorem WF_initState : WF initState := by
  refine ⟨?_, ?_, ?_, ?_⟩ <;> simp [initState, pendingKeys, activeVisitors]

theorem LogInv_initState : LogInv initState := by
  refine ⟨?_, ?_⟩ <;> simp [initState, pendingKeys, activeVisitors]

/-- Master invariant of any run from the initial state with succeeding
sinks: the state is well-formed, active and pending visitors have open
visits, and each visitor's event log alternates entry, exit, entry, … -/
theorem runFrames_master (cfg : Config) (fs : List FrameEnv) (hok : ∀ f ∈ fs, AllOk f) :
    WF (runFrames cfg fs initState).1 ∧ LogInv (runFrames cfg fs initState).1 ∧
      ∀ v, VChar (visitorKinds (runFrames cfg fs initState).2 v)
        (v ∈ (runFrames cfg fs initState).1.tr.logged_entry_this_visit) := by
  rcases runFrames_sound cfg fs initState hok WF_initState LogInv_initState with ⟨h1, h2, h3⟩
  refine ⟨h1, h2, fun v => ?_⟩
  have h0 : VChar [] (v ∈ initState.tr.logged_entry_this_visit) :=
    vchar_nil (by simp [initState])
  simpa using h3 v [] h0

/-! ### find_visitor characterisation -/

theorem find_visitor_none_char (cfg : Config) (emb : Emb) :
    ∀ store : List (VisitorId × Emb),
      find_visitor cfg emb store = none ↔
        ∀ p ∈ store, cfg.sim emb p.2 < cfg.similarity_threshold := by
  intro store
  induction store with
  | nil => simp [find_visitor]
  | cons p rest ih =>
    cases hrest : find_visitor cfg emb rest with
    | none =>
      rw [hrest] at ih
      simp only [find_visitor, hrest]
      by_cases hth : cfg.similarity_threshold ≤ cfg.sim emb p.2
      · rw [if_pos hth]
        simp only [List.mem_cons]
        constructor
        · intro h
          exact absurd h (by simp)
        · intro h
          exact absurd hth (not_le.2 (h p (Or.inl rfl)))
      · rw [if_neg hth]
        simp only [List.mem_cons, true_iff]
        intro q hq
        rcases hq with rfl | hq
        · exact not_le.1 hth
        · exact (ih.1 rfl) q hq
    | some vs =>
      rcases vs with ⟨v, sbest⟩
      rw [hrest] at ih
      have hex : ¬∀ q ∈ rest, cfg.sim emb q.2 < cfg.similarity_threshold :=
        fun hall => Option.noConfusion (ih.2 hall)
      simp only [find_visitor, hrest]
      by_cases hc : cfg.similarity_threshold ≤ cfg.sim emb p.2 ∧ sbest < cfg.sim emb p.2
      · rw [if_pos hc]
        simp only [List.mem_cons]
        constructor
        · intro h
          exact absurd h (by simp)
        · intro h
          exact absurd (fun q hq => h q (Or.inr hq)) hex
      · rw [if_neg hc]
        simp only [List.mem_cons]
        constructor
        · intro h
          exact absurd h (by simp)
        · intro h
          exact absurd (fun q hq => h q (Or.inr hq)) hex

theorem find_visitor_some_char (cfg : Config) (emb : Emb) :
    ∀ (store : List (VisitorId × Emb)) (v : VisitorId) (sq : ℚ),
      find_visitor cfg emb store = some (v, sq) →
      cfg.similarity_threshold ≤ sq ∧ (∃ e, (v, e) ∈ store ∧ sq = cfg.sim emb e) ∧
        ∀ p ∈ store, cfg.sim emb p.2 ≤ sq := by
  intro store
  induction store with
  | nil => intro v sq h; simp [find_visitor] at h
  | cons p rest ih =>
    intro v sq h
    cases hrest : find_visitor cfg emb rest with
    | none =>
      simp only [find_visitor, hrest] at h
      by_cases hth : cfg.similarity_threshold ≤ cfg.sim emb p.2
      · rw [if_pos hth] at h
        simp only [Option.some.injEq, Prod.mk.injEq] at h
        rcases h with ⟨rfl, rfl⟩
        refine ⟨hth, ⟨p.2, by simp, rfl⟩, ?_⟩
        intro q hq
        rcases List.mem_cons.1 hq with rfl | hq
        · exact le_refl _
        · exact le_of_lt (lt_of_lt_of_le
            (((find_visitor_none_char cfg emb rest).1 hrest) q hq) hth)
      · rw [if_neg hth] at h
        simp at h
    | some vs =>
      rcases vs with ⟨v0, sbest⟩
      simp only [find_visitor, hrest] at h
      rcases ih v0 sbest hrest with ⟨ih1, ⟨e0, he0, he0s⟩, ih3⟩
      by_cases hc : cfg.similarity_threshold ≤ cfg.sim emb p.2 ∧ sbest < cfg.sim emb p.2
      · rw [if_pos hc] at h
        simp only [Option.some.injEq, Prod.mk.injEq] at h
        rcases h with ⟨rfl, rfl⟩
        refine ⟨hc.1, ⟨p.2, by simp, rfl⟩, ?_⟩
        intro q hq
        rcases List.mem_cons.1 hq with rfl | hq
        · exact le_refl _
        · exact le_of_lt (lt_of_le_of_lt (ih3 q hq) hc.2)
      · rw [if_neg hc] at h
        simp only [Option.some.injEq, Prod.mk.injEq] at h
        rcases h with ⟨rfl, rfl⟩
        refine ⟨ih1, ⟨e0, List.mem_cons_of_mem _ he0, he0s⟩, ?_⟩
        intro q hq
        rcases List.mem_cons.1 hq with rfl | hq
        · by_cases hth : cfg.similarity_threshold ≤ cfg.sim emb q.2
          · have := hc
            rw [not_and] at this
            exact not_lt.1 (this hth)
          · exact le_trans (le_of_lt (not_le.1 hth)) ih1
        · exact ih3 q hq

/-! ### Per-visitor life-cycle steps for a non-visible visitor -/

theorem frameO1_visitors (cfg : Config) (f : FrameEnv) (s : SysState)
    (hndA : (s.tr.active_tracks.map Prod.fst).Nodup) :
    ∀ p ∈ (frameO1 cfg f s).active,
      p.2.visitor_id ∈ activeVisitors s.tr.active_tracks ∨
        p.2.visitor_id ∈ (frameO1 cfg f s).visible := by
  intro p hp
  have hI := loop1_inv cfg f s.db s.tr.active_tracks hndA
  by_cases h : p.1 ∈ (f.tracks.getD []).map Prod.fst
  · exact Or.inr (hI.doneVisible p hp h)
  · exact Or.inl (List.mem_map.2 ⟨p, hI.oldEntry p hp h, rfl⟩)

theorem not_active_o1 (cfg : Config) (f : FrameEnv) (s : SysState)
    (hndA : (s.tr.active_tracks.map Prod.fst).Nodup) (v : VisitorId)
    (hnva : v ∉ activeVisitors s.tr.active_tracks) (hnvis : v ∉ (frameO1 cfg f s).visible) :
    v ∉ activeVisitors (frameO1 cfg f s).active := by
  intro hmem
  rcases List.mem_map.1 hmem with ⟨p, hp, rfl⟩
  rcases frameO1_visitors cfg f s hndA p hp with h | h
  · exact hnva h
  · exact hnvis h

theorem not_lost_visitor (cfg : Config) (f : FrameEnv) (s : SysState)
    (hndA : (s.tr.active_tracks.map Prod.fst).Nodup) (v : VisitorId)
    (hnva : v ∉ activeVisitors s.tr.active_tracks) (hnvis : v ∉ (frameO1 cfg f s).visible) :
    v ∉ activeVisitors (frameLost cfg f s) := by
  intro hmem
  rcases List.mem_map.1 hmem with ⟨p, hp, rfl⟩
  exact not_active_o1 cfg f s hndA _ hnva hnvis
    (List.mem_map.2 ⟨p, (List.mem_filter.1 hp).1, rfl⟩)

theorem framePending3_untouched (cfg : Config) (f : FrameEnv) (s : SysState)
    (hndA : (s.tr.active_tracks.map Prod.fst).Nodup) (v : VisitorId) (pd : PendingData)
    (hnva : v ∉ activeVisitors s.tr.active_tracks) (hnvis : v ∉ (frameO1 cfg f s).visible) :
    ((v, pd) ∈ framePending3 cfg f s ↔ (v, pd) ∈ s.tr.pending_exit) := by
  unfold framePending3
  rw [loop3_fold_untouched f _ v pd (frameLost cfg f s) _
    (not_lost_visitor cfg f s hndA v hnva hnvis)]
  rw [frameO2_pending]
  constructor
  · intro h
    exact (List.mem_filter.1 h).1
  · intro h
    exact List.mem_filter.2 ⟨h, by simpa using hnvis⟩

/-- A visitor that is pending, not active, not visible, and whose deadline
has not strictly passed is untouched by the frame: same pending entry, no
events, membership of the entered set unchanged. -/
theorem pending_stable_step (cfg : Config) (f : FrameEnv) (s : SysState) (v : VisitorId)
    (pd : PendingData) (hWF : WF s) (hpd : (v, pd) ∈ s.tr.pending_exit)
    (hnva : v ∉ activeVisitors s.tr.active_tracks) (hnvis : v ∉ visibleOf cfg f s)
    (hlate : f.tSweep ≤ pd.timestamp + cfg.exit_timeout) :
    (v, pd) ∈ (update_frame cfg f s).1.tr.pending_exit ∧
      v ∉ activeVisitors (update_frame cfg f s).1.tr.active_tracks ∧
      (update_frame cfg f s).2.filter (fun e => e.visitor = v) = [] ∧
      (v ∈ (update_frame cfg f s).1.tr.logged_entry_this_visit ↔
        v ∈ s.tr.logged_entry_this_visit) := by
  obtain ⟨hndA, hndP, hndL, hdisj⟩ := hWF
  rw [visibleOf_eq] at hnvis
  have hp3 : (v, pd) ∈ framePending3 cfg f s :=
    (framePending3_untouched cfg f s hndA v pd hnva hnvis).2 hpd
  have hp3nd := framePending3_nodup cfg f s hndP
  have hnexpv : ¬expiredAt cfg f (v, pd) := by
    unfold expiredAt
    simp only [not_lt]
    linarith
  have hnexp : v ∉ expiredKeys cfg f (framePending3 cfg f s) := by
    intro hmem
    rcases mem_expiredKeys_iff.1 hmem with ⟨pd2, hpd2, hexp2⟩
    have hpdeq : pd2 = pd := nodup_keys_eq hp3nd hpd2 hp3
    exact hnexpv (hpdeq ▸ hexp2)
  refine ⟨?_, ?_, ?_, ?_⟩
  · rw [update_frame_pending]
    exact List.mem_filter.2 ⟨hp3, by simpa using hnexp⟩
  · intro hmem
    rcases List.mem_map.1 hmem with ⟨p, hp, rfl⟩
    rw [update_frame_active] at hp
    exact not_active_o1 cfg f s hndA _ hnva hnvis
      (List.mem_map.2 ⟨p, (List.mem_filter.1 hp).1, rfl⟩)
  · rw [update_frame_events, List.filter_append, frame_entry_filter cfg f s hndA v,
      if_neg (fun hcond => hnvis hcond.1), List.nil_append,
      flatMap_exit_filter_mem cfg f _ hp3nd hp3]
    unfold exitEvts
    rw [if_neg hnexpv]
  · rw [update_logged_iff, frame_logged2_iff cfg f s hndA v]
    constructor
    · rintro ⟨h | ⟨h, _⟩, _⟩
      · exact h
      · exact absurd h hnvis
    · intro h
      exact ⟨Or.inl h, hnexp⟩

/-- A visitor that is pending, not active, not visible, and whose deadline
has strictly passed is swept: exactly one exit event dated at the sweep
clock, and the visitor leaves the pending buffer and the entered set. -/
theorem pending_expire_step (cfg : Config) (f : FrameEnv) (s : SysState) (v : VisitorId)
    (pd : PendingData) (hWF : WF s) (hpd : (v, pd) ∈ s.tr.pending_exit)
    (hnva : v ∉ activeVisitors s.tr.active_tracks) (hnvis : v ∉ visibleOf cfg f s)
    (hexp : pd.timestamp + cfg.exit_timeout < f.tSweep)
    (hsave : f.save_exit_ok v = true) (hdb : f.db_exit_ok v = true) :
    (update_frame cfg f s).2.filter (fun e => e.visitor = v) =
        [⟨v, EvKind.exit, f.tSweep⟩] ∧
      v ∉ pendingKeys (update_frame cfg f s).1.tr.pending_exit ∧
      v ∉ activeVisitors (update_frame cfg f s).1.tr.active_tracks ∧
      v ∉ (update_frame cfg f s).1.tr.logged_entry_this_visit := by
  obtain ⟨hndA, hndP, hndL, hdisj⟩ := hWF
  rw [visibleOf_eq] at hnvis
  have hp3 : (v, pd) ∈ framePending3 cfg f s :=
    (framePending3_untouched cfg f s hndA v pd hnva hnvis).2 hpd
  have hp3nd := framePending3_nodup cfg f s hndP
  have hexpv : expiredAt cfg f (v, pd) := by
    unfold expiredAt
    simp only
    linarith
  have hvexp : v ∈ expiredKeys cfg f (framePending3 cfg f s) :=
    mem_expiredKeys_iff.2 ⟨pd, hp3, hexpv⟩
  refine ⟨?_, ?_, ?_, ?_⟩
  · rw [update_frame_events, List.filter_append, frame_entry_filter cfg f s hndA v,
      if_neg (fun hcond => hnvis hcond.1), List.nil_append,
      flatMap_exit_filter_mem cfg f _ hp3nd hp3]
    unfold exitEvts
    rw [if_pos hexpv, if_pos hsave, if_pos hdb]
  · rw [update_frame_pending]
    intro hmem
    rcases mem_pendingKeys_iff.1 hmem with ⟨pd2, hpd2⟩
    exact (by simpa using (List.mem_filter.1 hpd2).2 : v ∉ expiredKeys cfg f _) hvexp
  · intro hmem
    rcases List.mem_map.1 hmem with ⟨p, hp, rfl⟩
    rw [update_frame_active] at hp
    exact not_active_o1 cfg f s hndA _ hnva hnvis
      (List.mem_map.2 ⟨p, (List.mem_filter.1 hp).1, rfl⟩)
  · rw [update_logged_iff]
    rintro ⟨_, hne⟩
    exact hne hvexp

/-- A visitor that is neither pending, nor active, nor visible stays
absent from every structure and produces no events. -/
theorem gone_step (cfg : Config) (f : FrameEnv) (s : SysState) (v : VisitorId)
    (hWF : WF s) (hnp : v ∉ pendingKeys s.tr.pending_exit)
    (hnva : v ∉ activeVisitors s.tr.active_tracks) (hnvis : v ∉ visibleOf cfg f s) :
    (update_frame cfg f s).2.filter (fun e => e.visitor = v) = [] ∧
      v ∉ pendingKeys (update_frame cfg f s).1.tr.pending_exit ∧
      v ∉ activeVisitors (update_frame cfg f s).1.tr.active_tracks := by
  obtain ⟨hndA, hndP, hndL, hdisj⟩ := hWF
  rw [visibleOf_eq] at hnvis
  have hnp3 : v ∉ pendingKeys (framePending3 cfg f s) := by
    intro hmem
    rcases (framePending3_keys cfg f s v).1 hmem with ⟨h, _⟩ | ⟨h, _⟩
    · exact hnp h
    · exact not_lost_visitor cfg f s hndA v hnva hnvis h
  refine ⟨?_, ?_, ?_⟩
  · rw [update_frame_events, List.filter_append, frame_entry_filter cfg f s hndA v,
      if_neg (fun hcond => hnvis hcond.1), List.nil_append,
      flatMap_exit_filter_notmem cfg f v _ hnp3]
  · rw [update_frame_pending]
    intro hmem
    rcases mem_pendingKeys_iff.1 hmem with ⟨pd2, hpd2⟩
    exact hnp3 (mem_pendingKeys_iff.2 ⟨pd2, (List.mem_filter.1 hpd2).1⟩)
  · intro hmem
    rcases List.mem_map.1 hmem with ⟨p, hp, rfl⟩
    rw [update_frame_active] at hp
    exact not_active_o1 cfg f s hndA _ hnva hnvis
      (List.mem_map.2 ⟨p, (List.mem_filter.1 hp).1, rfl⟩)

theorem run_gone (cfg : Config) :
    ∀ (fs : List FrameEnv) (s : SysState) (v : VisitorId), WF s →
      v ∉ pendingKeys s.tr.pending_exit → v ∉ activeVisitors s.tr.active_tracks →
      (∀ (k : Nat) (hk : k < fs.length),
        v ∉ visibleOf cfg fs[k] (runFrames cfg (fs.take k) s).1) →
      (runFrames cfg fs s).2.filter (fun e => e.visitor = v) = [] ∧
        v ∉ pendingKeys (runFrames cfg fs s).1.tr.pending_exit ∧
        v ∉ activeVisitors (runFrames cfg fs s).1.tr.active_tracks := by
  intro fs
  induction fs with
  | nil =>
    intro s v _ hnp hnva _
    exact ⟨rfl, hnp, hnva⟩
  | cons f rest ih =>
    intro s v hWF hnp hnva hnvis
    have hv0 : v ∉ visibleOf cfg f s := by
      have h0 := hnvis 0 (by simp)
      simp only [List.getElem_cons_zero, List.take_zero] at h0
      exact h0
    rcases gone_step cfg f s v hWF hnp hnva hv0 with ⟨h1, h2, h3⟩
    have hWF1 := update_WF cfg f s hWF
    have hnvis1 : ∀ (k : Nat) (hk : k < rest.length),
        v ∉ visibleOf cfg rest[k] (runFrames cfg (rest.take k) (update_frame cfg f s).1).1 := by
      intro k hk
      have h0 := hnvis (k + 1) (by simp only [List.length_cons]; omega)
      simp only [List.getElem_cons_succ, List.take_succ_cons] at h0
      exact h0
    rcases ih (update_frame cfg f s).1 v hWF1 h2 h3 hnvis1 with ⟨g1, g2, g3⟩
    rw [runFrames_cons]
    refine ⟨?_, g2, g3⟩
    simp only [List.filter_append, h1, g1, List.append_nil]

theorem run_pending_stable (cfg : Config) :
    ∀ (fs : List FrameEnv) (s : SysState) (v : VisitorId) (pd : PendingData), WF s →
      (v, pd) ∈ s.tr.pending_exit → v ∉ activeVisitors s.tr.active_tracks →
      (∀ (k : Nat) (hk : k < fs.length),
        v ∉ visibleOf cfg fs[k] (runFrames cfg (fs.take k) s).1) →
      (∀ g ∈ fs, g.tSweep ≤ pd.timestamp + cfg.exit_timeout) →
      (v, pd) ∈ (runFrames cfg fs s).1.tr.pending_exit ∧
        v ∉ activeVisitors (runFrames cfg fs s).1.tr.active_tracks ∧
        (runFrames cfg fs s).2.filter (fun e => e.visitor = v) = [] ∧
        (v ∈ (runFrames cfg fs s).1.tr.logged_entry_this_visit ↔
          v ∈ s.tr.logged_entry_this_visit) := by
  intro fs
  induction fs with
  | nil =>
    intro s v pd _ hpd hnva _ _
    exact ⟨hpd, hnva, rfl, Iff.rfl⟩
  | cons f rest ih =>
    intro s v pd hWF hpd hnva hnvis hlate
    have hv0 : v ∉ visibleOf cfg f s := by
      have h0 := hnvis 0 (by simp)
      simp only [List.getElem_cons_zero, List.take_zero] at h0
      exact h0
    rcases pending_stable_step cfg f s v pd hWF hpd hnva hv0
      (hlate f (by simp)) with ⟨h1, h2, h3, h4⟩
    have hWF1 := update_WF cfg f s hWF
    have hnvis1 : ∀ (k : Nat) (hk : k < rest.length),
        v ∉ visibleOf cfg rest[k] (runFrames cfg (rest.take k) (update_frame cfg f s).1).1 := by
      intro k hk
      have h0 := hnvis (k + 1) (by simp only [List.length_cons]; omega)
      simp only [List.getElem_cons_succ, List.take_succ_cons] at h0
      exact h0
    have hlate1 : ∀ g ∈ rest, g.tSweep ≤ pd.timestamp + cfg.exit_timeout :=
      fun g hg => hlate g (List.mem_cons_of_mem _ hg)
    rcases ih (update_frame cfg f s).1 v pd hWF1 h1 h2 hnvis1 hlate1 with ⟨g1, g2, g3, g4⟩
    rw [runFrames_cons]
    refine ⟨g1, g2, ?_, g4.trans h4⟩
    simp only [List.filter_append, h3, g3, List.append_nil]

theorem run_pending_expires (cfg : Config) :
    ∀ (fs : List FrameEnv) (s : SysState) (v : VisitorId) (pd : PendingData), WF s →
      (v, pd) ∈ s.tr.pending_exit → v ∉ activeVisitors s.tr.active_tracks →
      (∀ (k : Nat) (hk : k < fs.length),
        v ∉ visibleOf cfg fs[k] (runFrames cfg (fs.take k) s).1) →
      (∀ g ∈ fs, g.save_exit_ok v = true ∧ g.db_exit_ok v = true) →
      (∃ g ∈ fs, pd.timestamp + cfg.exit_timeout < g.tSweep) →
      ∃ t : Time, pd.timestamp + cfg.exit_timeout < t ∧
        (runFrames cfg fs s).2.filter (fun e => e.visitor = v) =
          [⟨v, EvKind.exit, t⟩] := by
  intro fs
  induction fs with
  | nil =>
    intro s v pd _ _ _ _ _ hex
    rcases hex with ⟨g, hg, _⟩
    simp at hg
  | cons f rest ih =>
    intro s v pd hWF hpd hnva hnvis hsinks hex
    have hv0 : v ∉ visibleOf cfg f s := by
      have h0 := hnvis 0 (by simp)
      simp only [List.getElem_cons_zero, List.take_zero] at h0
      exact h0
    have hWF1 := update_WF cfg f s hWF
    have hnvis1 : ∀ (k : Nat) (hk : k < rest.length),
        v ∉ visibleOf cfg rest[k] (runFrames cfg (rest.take k) (update_frame cfg f s).1).1 := by
      intro k hk
      have h0 := hnvis (k + 1) (by simp only [List.length_cons]; omega)
      simp only [List.getElem_cons_succ, List.take_succ_cons] at h0
      exact h0
    by_cases hexp : pd.timestamp + cfg.exit_timeout < f.tSweep
    · rcases pending_expire_step cfg f s v pd hWF hpd hnva hv0 hexp
        (hsinks f (by simp)).1 (hsinks f (by simp)).2 with ⟨h1, h2, h3, _⟩
      rcases run_gone cfg rest (update_frame cfg f s).1 v hWF1 h2 h3 hnvis1 with ⟨g1, _, _⟩
      refine ⟨f.tSweep, hexp, ?_⟩
      rw [runFrames_cons]
      simp only [List.filter_append, h1, g1, List.append_nil]
    · rcases pending_stable_step cfg f s v pd hWF hpd hnva hv0 (not_lt.1 hexp) with
        ⟨h1, h2, h3, _⟩
      have hex1 : ∃ g ∈ rest, pd.timestamp + cfg.exit_timeout < g.tSweep := by
        rcases hex with ⟨g, hg, hglt⟩
        rcases List.mem_cons.1 hg with rfl | hg
        · exact absurd hglt hexp
        · exact ⟨g, hg, hglt⟩
      have hsinks1 : ∀ g ∈ rest, g.save_exit_ok v = true ∧ g.db_exit_ok v = true :=
        fun g hg => hsinks g (List.mem_cons_of_mem _ hg)
      rcases ih (update_frame cfg f s).1 v pd hWF1 h1 h2 hnvis1 hsinks1 hex1 with
        ⟨t, ht, hfil⟩
      refine ⟨t, ht, ?_⟩
      rw [runFrames_cons]
      simp only [List.filter_append, h3, hfil, List.nil_append]

theorem altAt_take_counts {l : List EvKind} (h : AltAt l) :
    ∀ n : Nat, (l.take n).count EvKind.entry = (min n l.length + 1) / 2 ∧
      (l.take n).count EvKind.exit = min n l.length / 2 := by
  intro n
  induction n with
  | zero => simp
  | succ m ih =>
    rcases ih with ⟨ih1, ih2⟩
    by_cases hm : m < l.length
    · have hget : l[m]? = some l[m] := List.getElem?_eq_getElem hm
      rw [List.take_succ, hget]
      have hvm := h m hm
      rw [List.count_append, List.count_append, ih1, ih2]
      have hmin1 : min (m + 1) l.length = m + 1 := by omega
      have hmin2 : min m l.length = m := by omega
      rw [hmin1, hmin2]
      by_cases hpar : m % 2 = 0
      · rw [hvm, if_pos hpar]
        have c1 : (Option.toList (some EvKind.entry)).count EvKind.entry = 1 := by decide
        have c2 : (Option.toList (some EvKind.entry)).count EvKind.exit = 0 := by decide
        rw [c1, c2]
        omega
      · rw [hvm, if_neg hpar]
        have c1 : (Option.toList (some EvKind.exit)).count EvKind.entry = 0 := by decide
        have c2 : (Option.toList (some EvKind.exit)).count EvKind.exit = 1 := by decide
        rw [c1, c2]
        omega
    · have hget : l[m]? = none := List.getElem?_eq_none (by omega)
      rw [List.take_succ, hget]
      have hmin1 : min (m + 1) l.length = l.length := by omega
      have hmin2 : min m l.length = l.length := by omega
      rw [hmin2] at ih1 ih2
      simp only [Option.toList_none, List.append_nil, hmin1]
      exact ⟨ih1, ih2⟩

/-! ### Loop 1: skipping an unresolvable binding -/

theorem loop1_keys_from (cfg : Config) (f : FrameEnv) :
    ∀ (l : List (TrackId × Crop)) (acc : Loop1Out),
      ∀ p ∈ (l.foldl (loop1Step cfg f) acc).active,
        p.1 ∈ acc.active.map Prod.fst ∨ p.1 ∈ l.map Prod.fst := by
  intro l
  induction l with
  | nil =>
    intro acc p hp
    exact Or.inl (List.mem_map_of_mem Prod.fst hp)
  | cons tc rest ih =>
    intro acc p hp
    simp only [List.foldl_cons] at hp
    rcases ih (loop1Step cfg f acc tc) p hp with h | h
    · unfold loop1Step at h
      cases hlk : List.lookup tc.1 acc.active with
      | some td =>
        rw [hlk] at h
        simp only [setCrop_keys] at h
        exact Or.inl h
      | none =>
        rw [hlk] at h
        cases hres : resolveNew cfg f acc.db tc.2 with
        | mk db2 ov =>
          rw [hres] at h
          cases ov with
          | none => exact Or.inl h
          | some v =>
            simp only [List.map_append] at h
            rcases List.mem_append.1 h with h | h
            · exact Or.inl h
            · simp at h
              rw [h]
              exact Or.inr (by simp)
    · exact Or.inr (by simp only [List.map_cons]; exact List.mem_cons_of_mem _ h)

theorem loop1_visible_mono (cfg : Config) (f : FrameEnv) :
    ∀ (l : List (TrackId × Crop)) (acc : Loop1Out),
      acc.visible ⊆ (l.foldl (loop1Step cfg f) acc).visible := by
  intro l
  induction l with
  | nil => intro acc; exact fun v hv => hv
  | cons tc rest ih =>
    intro acc v hv
    simp only [List.foldl_cons]
    apply ih
    unfold loop1Step
    cases List.lookup tc.1 acc.active with
    | some td => exact addVisible_subset hv
    | none =>
      cases hres : resolveNew cfg f acc.db tc.2 with
      | mk db2 ov =>
        cases ov with
        | none => exact hv
        | some w => exact addVisible_subset hv

theorem loop1_visitor_stable (cfg : Config) (f : FrameEnv) :
    ∀ (l : List (TrackId × Crop)) (acc : Loop1Out) (tid : TrackId) (v : VisitorId),
      (∃ c, (tid, ⟨v, c⟩) ∈ acc.active) →
      ∃ c2, (tid, ⟨v, c2⟩) ∈ (l.foldl (loop1Step cfg f) acc).active := by
  intro l
  induction l with
  | nil => intro acc tid v h; exact h
  | cons tc rest ih =>
    intro acc tid v h
    rcases h with ⟨c, hc⟩
    simp only [List.foldl_cons]
    apply ih
    unfold loop1Step
    cases List.lookup tc.1 acc.active with
    | some td =>
      by_cases htid : tid = tc.1
      · refine ⟨tc.2, ?_⟩
        unfold setCrop
        refine List.mem_map.2 ⟨(tid, ⟨v, c⟩), hc, ?_⟩
        rw [if_pos htid]
      · refine ⟨c, ?_⟩
        unfold setCrop
        refine List.mem_map.2 ⟨(tid, ⟨v, c⟩), hc, ?_⟩
        rw [if_neg htid]
    | none =>
      cases hres : resolveNew cfg f acc.db tc.2 with
      | mk db2 ov =>
        cases ov with
        | none => exact ⟨c, hc⟩
        | some w => exact ⟨c, List.mem_append.2 (Or.inl hc)⟩

theorem pairState_ext {a b : SysState × List Event} (h1 : a.1.db = b.1.db)
    (h2 : a.1.tr.active_tracks = b.1.tr.active_tracks)
    (h3 : a.1.tr.pending_exit = b.1.tr.pending_exit)
    (h4 : a.1.tr.logged_entry_this_visit = b.1.tr.logged_entry_this_visit)
    (h5 : a.2 = b.2) : a = b := by
  rcases a with ⟨⟨adb, ⟨a1, a2, a3⟩⟩, ae⟩
  rcases b with ⟨⟨bdb, ⟨b1, b2, b3⟩⟩, be⟩
  simp only at h1 h2 h3 h4 h5
  rw [h1, h2, h3, h4, h5]

/-- A reported binding that is new to the Track Registry and whose crop
yields no embedding leaves the frame update exactly as if the binding
had not been reported at all. -/
theorem update_skip_bad (cfg : Config) (f : FrameEnv) (s : SysState)
    (tid : TrackId) (c : Crop) (l1 l2 : List (TrackId × Crop))
    (ht : f.tracks = some (l1 ++ (tid, c) :: l2))
    (hnotin : tid ∉ s.tr.active_tracks.map Prod.fst)
    (hnotrep : tid ∉ (l1 ++ l2).map Prod.fst)
    (hbad : cfg.get_embedding c = none) :
    update_frame cfg f s = update_frame cfg { f with tracks := some (l1 ++ l2) } s := by
  set f2 : FrameEnv := { f with tracks := some (l1 ++ l2) } with hf2
  have hstep : loop1Step cfg f2 = loop1Step cfg f := rfl
  have htr2 : f2.tracks.getD [] = l1 ++ l2 := rfl
  have htr1 : f.tracks.getD [] = l1 ++ (tid, c) :: l2 := by rw [ht]; rfl
  have hnl1 : tid ∉ l1.map Prod.fst := by
    intro h
    exact hnotrep (by rw [List.map_append]; exact List.mem_append.2 (Or.inl h))
  have hnl2 : tid ∉ l2.map Prod.fst := by
    intro h
    exact hnotrep (by rw [List.map_append]; exact List.mem_append.2 (Or.inr h))
  have hmid : loop1Step cfg f
      (l1.foldl (loop1Step cfg f) ⟨s.db, s.tr.active_tracks, []⟩) (tid, c) =
      l1.foldl (loop1Step cfg f) ⟨s.db, s.tr.active_tracks, []⟩ := by
    have hlk : List.lookup tid
        (l1.foldl (loop1Step cfg f) ⟨s.db, s.tr.active_tracks, []⟩).active = none := by
      rw [lookup_eq_none_iff]
      intro hmem
      rcases List.mem_map.1 hmem with ⟨p, hp, hpt⟩
      rcases loop1_keys_from cfg f l1 _ p hp with h | h
      · exact hnotin (hpt ▸ h)
      · exact hnl1 (hpt ▸ h)
    simp only [loop1Step, hlk, resolveNew, hbad]
  have ho1 : frameO1 cfg f s = frameO1 cfg f2 s := by
    unfold frameO1 loop1
    rw [htr1, htr2, hstep, List.foldl_append, List.foldl_append, List.foldl_cons, hmid]
  have htid_notin_o1 : tid ∉ (frameO1 cfg f s).active.map Prod.fst := by
    intro hmem
    rcases List.mem_map.1 hmem with ⟨p, hp, hpt⟩
    rw [ho1] at hp
    have hp2 : p ∈ ((l1 ++ l2).foldl (loop1Step cfg f2)
        (⟨s.db, s.tr.active_tracks, []⟩ : Loop1Out)).active := hp
    rcases loop1_keys_from cfg f2 (l1 ++ l2) _ p hp2 with h | h
    · exact hnotin (hpt ▸ h)
    · exact hnotrep (hpt ▸ h)
  have hids : ∀ p ∈ (frameO1 cfg f s).active,
      ((p.1 ∈ (f.tracks.getD []).map Prod.fst) ↔
        (p.1 ∈ (f2.tracks.getD []).map Prod.fst)) := by
    intro p hp
    have hne : p.1 ≠ tid := fun hh => htid_notin_o1 (hh ▸ List.mem_map_of_mem Prod.fst hp)
    rw [htr1, htr2]
    simp only [List.map_append, List.map_cons, List.mem_append, List.mem_cons]
    constructor
    · rintro (h | h | h)
      · exact Or.inl h
      · exact absurd h hne
      · exact Or.inr h
    · rintro (h | h)
      · exact Or.inl h
      · exact Or.inr (Or.inr h)
  have hkept : (update_frame cfg f s).1.tr.active_tracks =
      (update_frame cfg f2 s).1.tr.active_tracks := by
    rw [update_frame_active, update_frame_active, ← ho1]
    apply List.filter_congr
    intro p hp
    exact decide_eq_decide.2 (hids p hp)
  have hlost : frameLost cfg f s = frameLost cfg f2 s := by
    unfold frameLost
    rw [← ho1]
    apply List.filter_congr
    intro p hp
    exact decide_eq_decide.2 (not_congr (hids p hp))
  have hstep2 : loop2Step f = loop2Step f2 := rfl
  have ho2 : frameO2 cfg f s = frameO2 cfg f2 s := by
    unfold frameO2 loop2
    rw [ho1, hstep2]
  have hstep3 : loop3Step f = loop3Step f2 := rfl
  have hp3 : framePending3 cfg f s = framePending3 cfg f2 s := by
    unfold framePending3
    rw [hlost, ho2, ho1, hstep3]
  have hek : expiredKeys cfg f = expiredKeys cfg f2 := rfl
  have hev : exitEvts cfg f = exitEvts cfg f2 := rfl
  apply pairState_ext
  · rw [update_frame_db, update_frame_db, ho1]
  · exact hkept
  · rw [update_frame_pending, update_frame_pending, hp3, hek]
  · rw [update_frame_logged, update_frame_logged, ho2, hp3, hek]
  · rw [update_frame_events, update_frame_events, ho2, hp3, hev]

/-- A binding still reported on a later frame, once its crop embeds and
the store is available, is resolved: an Active Track Entry is created
and its visitor becomes visible. -/
theorem resolve_retry (cfg : Config) (f : FrameEnv) (s : SysState)
    (tid : TrackId) (c2 : Crop) (l1 l2 : List (TrackId × Crop)) (emb : Emb)
    (ht : f.tracks = some (l1 ++ (tid, c2) :: l2))
    (hnotin : tid ∉ s.tr.active_tracks.map Prod.fst)
    (hnotrep : tid ∉ (l1 ++ l2).map Prod.fst)
    (hemb : cfg.get_embedding c2 = some emb)
    (hreg : f.register_ok emb = true) :
    ∃ v c3, (tid, ⟨v, c3⟩) ∈ (update_frame cfg f s).1.tr.active_tracks ∧
      v ∈ visibleOf cfg f s := by
  have htr1 : f.tracks.getD [] = l1 ++ (tid, c2) :: l2 := by rw [ht]; rfl
  have hnl1 : tid ∉ l1.map Prod.fst := by
    intro h
    exact hnotrep (by rw [List.map_append]; exact List.mem_append.2 (Or.inl h))
  have hlk : List.lookup tid
      (l1.foldl (loop1Step cfg f) ⟨s.db, s.tr.active_tracks, []⟩).active = none := by
    rw [lookup_eq_none_iff]
    intro hmem
    rcases List.mem_map.1 hmem with ⟨p, hp, hpt⟩
    rcases loop1_keys_from cfg f l1 _ p hp with h | h
    · exact hnotin (hpt ▸ h)
    · exact hnl1 (hpt ▸ h)
  set acc1 : Loop1Out := l1.foldl (loop1Step cfg f) ⟨s.db, s.tr.active_tracks, []⟩ with hacc1
  obtain ⟨v, db2, hres⟩ : ∃ v db2, resolveNew cfg f acc1.db c2 = (db2, some v) := by
    unfold resolveNew
    rw [hemb]
    show ∃ v db2,
      (match find_visitor cfg emb acc1.db.store with
        | some (v0, _) => (acc1.db, some v0)
        | none =>
          if f.register_ok emb = true then
            ((register_new_visitor acc1.db emb).1, some (register_new_visitor acc1.db emb).2)
          else (acc1.db, none)) = (db2, some v)
    cases hfind : find_visitor cfg emb acc1.db.store with
    | some p =>
      rcases p with ⟨v0, s0⟩
      exact ⟨v0, acc1.db, rfl⟩
    | none =>
      refine ⟨acc1.db.next_id, (register_new_visitor acc1.db emb).1, ?_⟩
      show (if f.register_ok emb = true then
          ((register_new_visitor acc1.db emb).1, some (register_new_visitor acc1.db emb).2)
        else (acc1.db, none)) =
        ((register_new_visitor acc1.db emb).1, some acc1.db.next_id)
      rw [if_pos hreg]
      rfl
  have hstepped : loop1Step cfg f acc1 (tid, c2) =
      ⟨db2, acc1.active ++ [(tid, ⟨v, c2⟩)], addVisible acc1.visible v⟩ := by
    simp only [loop1Step, hlk, hres]
  have ho1eq : frameO1 cfg f s =
      l2.foldl (loop1Step cfg f) ⟨db2, acc1.active ++ [(tid, ⟨v, c2⟩)],
        addVisible acc1.visible v⟩ := by
    unfold frameO1 loop1
    rw [htr1, List.foldl_append, List.foldl_cons, ← hacc1, hstepped]
  obtain ⟨c3, hc3⟩ := loop1_visitor_stable cfg f l2
    ⟨db2, acc1.active ++ [(tid, ⟨v, c2⟩)], addVisible acc1.visible v⟩ tid v
    ⟨c2, by simp⟩
  refine ⟨v, c3, ?_, ?_⟩
  · rw [update_frame_active]
    apply List.mem_filter.2
    refine ⟨by rw [ho1eq]; exact hc3, ?_⟩
    simp only [htr1, List.map_append, List.map_cons, decide_eq_true_eq]
    exact List.mem_append.2 (Or.inr (by simp))
  · rw [visibleOf_eq, ho1eq]
    exact loop1_visible_mono cfg f l2 _ (addVisible_mem.2 (Or.inr rfl))

theorem run_WF (cfg : Config) :
    ∀ (fs : List FrameEnv) (s : SysState), WF s → WF (runFrames cfg fs s).1 := by
  intro fs
  induction fs with
  | nil => intro s h; exact h
  | cons f rest ih =>
    intro s h
    rw [runFrames_cons]
    exact ih _ (update_WF cfg f s h)

theorem exitEvts_kind {cfg : Config} {f : FrameEnv} {p : VisitorId × PendingData} :
    ∀ e ∈ exitEvts cfg f p, e.kind = EvKind.exit ∧ e.time = f.tSweep := by
  intro e he
  unfold exitEvts at he
  by_cases h1 : expiredAt cfg f p
  · rw [if_pos h1] at he
    by_cases h2 : f.save_exit_ok p.1
    · rw [if_pos h2] at he
      by_cases h3 : f.db_exit_ok p.1
      · rw [if_pos h3] at he
        simp at he
        rw [he]
        exact ⟨rfl, rfl⟩
      · rw [if_neg h3] at he
        simp at he
    · rw [if_neg h2] at he
      simp at he
  · rw [if_neg h1] at he
    simp at he

/-- Between two consecutive exits of an alternating word there is exactly
one entry. -/
theorem altAt_between_exits {l : List EvKind} (h : AltAt l) {i j : Nat} (hij : i < j)
    (hi : l[i]? = some EvKind.exit) (hj : l[j]? = some EvKind.exit)
    (hno : ∀ k, i < k → k < j → l[k]? ≠ some EvKind.exit) :
    ∃! k, i < k ∧ k < j ∧ l[k]? = some EvKind.entry := by
  have hilen : i < l.length := by
    by_contra hc
    rw [List.getElem?_eq_none (by omega)] at hi
    exact Option.noConfusion hi
  have hjlen : j < l.length := by
    by_contra hc
    rw [List.getElem?_eq_none (by omega)] at hj
    exact Option.noConfusion hj
  have hiv : l[i] = EvKind.exit := by
    have := List.getElem?_eq_getElem hilen
    rw [this] at hi
    exact Option.some.inj hi
  have hjv : l[j] = EvKind.exit := by
    have := List.getElem?_eq_getElem hjlen
    rw [this] at hj
    exact Option.some.inj hj
  have hiodd : i % 2 = 1 := by
    have halt := h i hilen
    by_cases hp : i % 2 = 0
    · rw [if_pos hp] at halt
      rw [halt] at hiv
      exact absurd hiv (by decide)
    · omega
  have hjodd : j % 2 = 1 := by
    have halt := h j hjlen
    by_cases hp : j % 2 = 0
    · rw [if_pos hp] at halt
      rw [halt] at hjv
      exact absurd hjv (by decide)
    · omega
  have hje : j = i + 2 := by
    by_contra hc
    have hk : i + 2 < j := by omega
    have hklen : i + 2 < l.length := by omega
    have halt := h (i + 2) hklen
    rw [if_neg (by omega)] at halt
    apply hno (i + 2) (by omega) hk
    rw [List.getElem?_eq_getElem hklen, halt]
  refine ⟨i + 1, ⟨by omega, by omega, ?_⟩, ?_⟩
  · have hklen : i + 1 < l.length := by omega
    have halt := h (i + 1) hklen
    rw [if_pos (by omega)] at halt
    rw [List.getElem?_eq_getElem hklen, halt]
  · rintro k ⟨hk1, hk2, _⟩
    omega

theorem okFrame_AllOk (tracks : Option (List (TrackId × Crop))) (t : Time) :
    AllOk (okFrame tracks t) :=
  ⟨fun _ => rfl, fun _ => rfl, fun _ => rfl, fun _ => rfl, fun _ => rfl⟩

/-! ### Claims -/

/-- C3: after every frame update no visitor is simultaneously in the
frame's visible set and in the Pending Exit Buffer; moreover every key
of the buffer after the update is not visible and came either from the
buffer before the update or from a lost binding whose visitor is not
visible. -/
theorem C3_visible_pending_disjoint (cfg : Config) (f : FrameEnv) (s : SysState) :
    (∀ v ∈ visibleOf cfg f s, v ∉ pendingKeys (update_frame cfg f s).1.tr.pending_exit) ∧
    ∀ v ∈ pendingKeys (update_frame cfg f s).1.tr.pending_exit,
      v ∉ visibleOf cfg f s ∧
        (v ∈ pendingKeys s.tr.pending_exit ∨ v ∈ lostVisitorsOf cfg f s) := by
  have hsub : ∀ v ∈ pendingKeys (update_frame cfg f s).1.tr.pending_exit,
      v ∈ pendingKeys (framePending3 cfg f s) := by
    intro v hv
    rw [update_frame_pending] at hv
    rcases mem_pendingKeys_iff.1 hv with ⟨pd, hpd⟩
    exact mem_pendingKeys_iff.2 ⟨pd, (List.mem_filter.1 hpd).1⟩
  constructor
  · intro v hvis hv
    exact framePending3_not_visible cfg f s v (hsub v hv) (by rwa [visibleOf_eq] at hvis)
  · intro v hv
    have h3 := hsub v hv
    refine ⟨fun hvis => framePending3_not_visible cfg f s v h3
      (by rwa [visibleOf_eq] at hvis), ?_⟩
    rcases (framePending3_keys cfg f s v).1 h3 with ⟨h, _⟩ | ⟨h, _⟩
    · exact Or.inl h
    · exact Or.inr h

/-- C7: resolution of a usable crop always yields a visitor: if some
stored visitor reaches the threshold the one of maximal cosine
similarity is returned, otherwise a fresh visitor is registered with
this embedding and returned. -/
theorem C7_reid_policy (cfg : Config) (f : FrameEnv) (db : DbState) (crop : Crop)
    (emb : Emb) (hemb : cfg.get_embedding crop = some emb)
    (hreg : f.register_ok emb = true) :
    (∃ v, (resolveNew cfg f db crop).2 = some v) ∧
    (∀ v sq, find_visitor cfg emb db.store = some (v, sq) →
      (resolveNew cfg f db crop).2 = some v ∧ cfg.similarity_threshold ≤ sq ∧
        (∃ e, (v, e) ∈ db.store ∧ sq = cfg.sim emb e) ∧
        ∀ p ∈ db.store, cfg.sim emb p.2 ≤ sq) ∧
    (find_visitor cfg emb db.store = none →
      (∀ p ∈ db.store, cfg.sim emb p.2 < cfg.similarity_threshold) ∧
        (resolveNew cfg f db crop).2 = some db.next_id ∧
        (db.next_id, emb) ∈ (resolveNew cfg f db crop).1.store) := by
  have hre : resolveNew cfg f db crop =
      match find_visitor cfg emb db.store with
      | some (v0, _) => (db, some v0)
      | none =>
        if f.register_ok emb = true then
          ((register_new_visitor db emb).1, some (register_new_visitor db emb).2)
        else (db, none) := by
    unfold resolveNew
    rw [hemb]
  refine ⟨?_, ?_, ?_⟩
  · cases hfind : find_visitor cfg emb db.store with
    | some p =>
      rcases p with ⟨v0, s0⟩
      refine ⟨v0, ?_⟩
      rw [hre, hfind]
    | none =>
      refine ⟨db.next_id, ?_⟩
      rw [hre, hfind, if_pos hreg]
      rfl
  · intro v sq hfind
    rcases find_visitor_some_char cfg emb db.store v sq hfind with ⟨h1, h2, h3⟩
    refine ⟨by rw [hre, hfind], h1, h2, h3⟩
  · intro hfind
    refine ⟨(find_visitor_none_char cfg emb db.store).1 hfind, ?_, ?_⟩
    · rw [hre, hfind, if_pos hreg]
      rfl
    · rw [hre, hfind, if_pos hreg]
      show (db.next_id, emb) ∈ db.store ++ [(db.next_id, emb)]
      simp

/-- C7 witness. -/
theorem C7_witness :
    cfgW.get_embedding 100 = some 100 ∧ fW1.register_ok 100 = true ∧
      (∃ v, (resolveNew cfgW fW1 (⟨[(0, 100)], 1⟩ : DbState) 100).2 = some v) :=
  ⟨rfl, rfl, (C7_reid_policy cfgW fW1 ⟨[(0, 100)], 1⟩ 100 100 rfl rfl).1⟩

/-- C8: when a person's binding churns from A to B within one frame
(A lost, B still resolving to the same visitor, whose visit is open),
the frame emits no event at all for that visitor and does not mark the
visitor pending. -/
theorem C8_track_churn (cfg : Config) (f : FrameEnv) (s : SysState) (hWF : WF s)
    (A : TrackId) (v : VisitorId) (td : TrackData) (hA : (A, td) ∈ s.tr.active_tracks)
    (hAv : td.visitor_id = v) (hAgone : A ∉ (f.tracks.getD []).map Prod.fst)
    (hvis : v ∈ visibleOf cfg f s) (hlg : v ∈ s.tr.logged_entry_this_visit) :
    visitorKinds (update_frame cfg f s).2 v = [] ∧
      v ∉ pendingKeys (update_frame cfg f s).1.tr.pending_exit := by
  obtain ⟨hndA, hndP, hndL, hdisj⟩ := hWF
  rw [visibleOf_eq] at hvis
  have hnp3 : v ∉ pendingKeys (framePending3 cfg f s) :=
    fun hmem => framePending3_not_visible cfg f s v hmem hvis
  constructor
  · unfold visitorKinds
    rw [update_frame_events, List.filter_append, frame_entry_filter cfg f s hndA v,
      if_neg (by rintro ⟨_, h2, _⟩; exact h2 hlg), List.nil_append,
      flatMap_exit_filter_notmem cfg f v _ hnp3]
    rfl
  · rw [update_frame_pending]
    intro hmem
    rcases mem_pendingKeys_iff.1 hmem with ⟨pd, hpd⟩
    exact hnp3 (mem_pendingKeys_iff.2 ⟨pd, (List.mem_filter.1 hpd).1⟩)

/-- C8 witness: track 1 (visitor 0) is replaced by track 2 within one
frame; no event is emitted for visitor 0 and it is not marked pending. -/
theorem C8_witness :
    WF sW ∧ (1, (⟨0, 100⟩ : TrackData)) ∈ sW.tr.active_tracks ∧
      (0 : VisitorId) ∈ visibleOf cfgW fW8 sW ∧
      visitorKinds (update_frame cfgW fW8 sW).2 0 = [] ∧
      (0 : VisitorId) ∉ pendingKeys (update_frame cfgW fW8 sW).1.tr.pending_exit := by
  have h := C8_track_churn cfgW fW8 sW (by decide) 1 0 ⟨0, 100⟩ (by decide) rfl
    (by decide) (by decide) (by decide)
  exact ⟨by decide, by decide, by decide, h.1, h.2⟩

/-- C1: an entry event is emitted during a frame update for a visible
visitor iff the visitor is absent from `logged_entry_this_visit`, and
the visitor belongs to the set afterwards; consequently over any run
with succeeding sinks, between two consecutive exit events of a visitor
exactly one entry event is emitted. -/
theorem C1_entry_dedup (cfg : Config) (fs : List FrameEnv) (f : FrameEnv)
    (hok : ∀ g ∈ fs ++ [f], AllOk g) :
    (∀ v ∈ visibleOf cfg f (runFrames cfg fs initState).1,
      ((EvKind.entry ∈ visitorKinds
          (update_frame cfg f (runFrames cfg fs initState).1).2 v) ↔
        v ∉ (runFrames cfg fs initState).1.tr.logged_entry_this_visit) ∧
      v ∈ (update_frame cfg f
        (runFrames cfg fs initState).1).1.tr.logged_entry_this_visit) ∧
    ∀ (v : VisitorId) (i j : Nat), i < j →
      (visitorKinds (runFrames cfg (fs ++ [f]) initState).2 v)[i]? = some EvKind.exit →
      (visitorKinds (runFrames cfg (fs ++ [f]) initState).2 v)[j]? = some EvKind.exit →
      (∀ k, i < k → k < j →
        (visitorKinds (runFrames cfg (fs ++ [f]) initState).2 v)[k]? ≠
          some EvKind.exit) →
      ∃! k, i < k ∧ k < j ∧
        (visitorKinds (runFrames cfg (fs ++ [f]) initState).2 v)[k]? =
          some EvKind.entry := by
  have hokfs : ∀ g ∈ fs, AllOk g := fun g hg => hok g (List.mem_append.2 (Or.inl hg))
  have hokf : AllOk f := hok f (List.mem_append.2 (Or.inr (by simp)))
  obtain ⟨hreg, hsave, hdbe, hsavex, hdbx⟩ := hokf
  rcases runFrames_master cfg fs hokfs with ⟨hWF, hL, _⟩
  obtain ⟨hndA, hndP, hndL, hdisj⟩ := hWF
  constructor
  · intro v hvis
    rw [visibleOf_eq] at hvis
    have hnp3 : v ∉ pendingKeys (framePending3 cfg f (runFrames cfg fs initState).1) :=
      fun hmem => framePending3_not_visible cfg f _ v hmem hvis
    have hnexp : v ∉ expiredKeys cfg f (framePending3 cfg f (runFrames cfg fs initState).1) :=
      fun hmem => hnp3 (expiredKeys_subset cfg f _ hmem)
    have hkinds : visitorKinds (update_frame cfg f (runFrames cfg fs initState).1).2 v =
        (if v ∈ (frameO1 cfg f (runFrames cfg fs initState).1).visible ∧
            v ∉ (runFrames cfg fs initState).1.tr.logged_entry_this_visit ∧
            f.save_entry_ok v = true ∧ f.db_entry_ok v = true then
          [(⟨v, EvKind.entry, f.tEntry⟩ : Event)]
        else []).map Event.kind := by
      unfold visitorKinds
      rw [update_frame_events, List.filter_append, frame_entry_filter cfg f _ hndA v,
        flatMap_exit_filter_notmem cfg f v _ hnp3, List.append_nil]
    refine ⟨⟨?_, ?_⟩, ?_⟩
    · intro hmem
      rw [hkinds] at hmem
      by_cases hcond : v ∈ (frameO1 cfg f (runFrames cfg fs initState).1).visible ∧
          v ∉ (runFrames cfg fs initState).1.tr.logged_entry_this_visit ∧
          f.save_entry_ok v = true ∧ f.db_entry_ok v = true
      · exact hcond.2.1
      · rw [if_neg hcond] at hmem
        simp at hmem
    · intro hlg
      rw [hkinds, if_pos ⟨hvis, hlg, hsave v, hdbe v⟩]
      simp
    · rw [update_logged_iff]
      refine ⟨(frame_logged2_iff cfg f _ hndA v).2 ?_, hnexp⟩
      by_cases hlg : v ∈ (runFrames cfg fs initState).1.tr.logged_entry_this_visit
      · exact Or.inl hlg
      · exact Or.inr ⟨hvis, hsave v⟩
  · intro v i j hij hi hj hno
    have halt := ((runFrames_master cfg (fs ++ [f]) hok).2.2 v).alt
    exact altAt_between_exits halt hij hi hj hno

/-- C1 witness. -/
theorem C1_witness :
    (∀ g ∈ ([] : List FrameEnv) ++ [fW1], AllOk g) ∧
      ((EvKind.entry ∈ visitorKinds
          (update_frame cfgW fW1 (runFrames cfgW [] initState).1).2 0) ↔
        (0 : VisitorId) ∉ (runFrames cfgW [] initState).1.tr.logged_entry_this_visit) := by
  have hok : ∀ g ∈ ([] : List FrameEnv) ++ [fW1], AllOk g := by
    intro g hg
    simp only [List.nil_append, List.mem_singleton] at hg
    subst hg
    exact okFrame_AllOk _ _
  exact ⟨hok, ((C1_entry_dedup cfgW [] fW1 hok).1 0 (by decide)).1⟩

/-- C2: with succeeding sinks, at every frame boundary and along every
prefix of a visitor's event log the number of exits never exceeds the
number of entries, and the number of entries exceeds the number of
exits by at most one (at most one outstanding visit). -/
theorem C2_entry_precedes_exit (cfg : Config) (fs : List FrameEnv)
    (hok : ∀ f ∈ fs, AllOk f) :
    (∀ (k : Nat) (v : VisitorId),
      (visitorKinds (runFrames cfg (fs.take k) initState).2 v).count EvKind.exit ≤
        (visitorKinds (runFrames cfg (fs.take k) initState).2 v).count EvKind.entry ∧
      (visitorKinds (runFrames cfg (fs.take k) initState).2 v).count EvKind.entry ≤
        (visitorKinds (runFrames cfg (fs.take k) initState).2 v).count EvKind.exit + 1) ∧
    ∀ (v : VisitorId) (n : Nat),
      ((visitorKinds (runFrames cfg fs initState).2 v).take n).count EvKind.exit ≤
        ((visitorKinds (runFrames cfg fs initState).2 v).take n).count EvKind.entry ∧
      ((visitorKinds (runFrames cfg fs initState).2 v).take n).count EvKind.entry ≤
        ((visitorKinds (runFrames cfg fs initState).2 v).take n).count EvKind.exit + 1 := by
  constructor
  · intro k v
    have hok' : ∀ f ∈ fs.take k, AllOk f := fun f hf => hok f (List.take_subset k fs hf)
    have hm := (runFrames_master cfg (fs.take k) hok').2.2 v
    by_cases hop : v ∈ (runFrames cfg (fs.take k) initState).1.tr.logged_entry_this_visit
    · have hc := hm.counts_open hop
      omega
    · have hc := hm.counts_closed hop
      omega
  · intro v n
    have hm := (runFrames_master cfg fs hok).2.2 v
    rcases altAt_take_counts hm.alt n with ⟨h1, h2⟩
    rw [h1, h2]
    omega

/-- C2 witness. -/
theorem C2_witness :
    (∀ f ∈ [fW1], AllOk f) ∧
      (visitorKinds (runFrames cfgW ([fW1].take 1) initState).2 0).count EvKind.exit ≤
        (visitorKinds (runFrames cfgW ([fW1].take 1) initState).2 0).count EvKind.entry := by
  have hok : ∀ f ∈ [fW1], AllOk f := by
    intro g hg
    simp only [List.mem_singleton] at hg
    subst hg
    exact okFrame_AllOk _ _
  exact ⟨hok, ((C2_entry_precedes_exit cfgW [fW1] hok).1 1 0).1⟩

theorem runFrames_append_fst (cfg : Config) :
    ∀ (fs1 fs2 : List FrameEnv) (s : SysState),
      (runFrames cfg (fs1 ++ fs2) s).1 = (runFrames cfg fs2 (runFrames cfg fs1 s).1).1 := by
  intro fs1
  induction fs1 with
  | nil => intro fs2 s; rfl
  | cons f rest ih =>
    intro fs2 s
    rw [List.cons_append, runFrames_cons, runFrames_cons]
    exact ih fs2 (update_frame cfg f s).1

theorem runFrames_append_snd (cfg : Config) :
    ∀ (fs1 fs2 : List FrameEnv) (s : SysState),
      (runFrames cfg (fs1 ++ fs2) s).2 =
        (runFrames cfg fs1 s).2 ++ (runFrames cfg fs2 (runFrames cfg fs1 s).1).2 := by
  intro fs1
  induction fs1 with
  | nil => intro fs2 s; rfl
  | cons f rest ih =>
    intro fs2 s
    rw [List.cons_append, runFrames_cons, runFrames_cons]
    simp only
    rw [ih fs2 (update_frame cfg f s).1, List.append_assoc]

/-- C4 counterexample: with a Pending Exit Entry of timestamp 1 and
timeout 3, a sweep at clock 4 — exactly the deadline, so deadline ≤ now
holds — yields nothing: no event is emitted and the entry stays in the
buffer, refuting the claimed "deadline ≤ now" sweep condition (the code
uses strictly greater). -/
theorem C4_counterexample :
    ((0 : VisitorId), (⟨1, 100⟩ : PendingData)) ∈ sC4.tr.pending_exit ∧
      (1 : ℤ) + cfgW.exit_timeout ≤ fC4.tSweep ∧
      (update_frame cfgW fC4 sC4).2 = [] ∧
      ((0 : VisitorId), (⟨1, 100⟩ : PendingData)) ∈
        (update_frame cfgW fC4 sC4).1.tr.pending_exit :=
  ⟨by decide, by decide, by decide, by decide⟩

/-- C4 (amended): the sweep removes exactly those Pending Exit Entries
whose deadline is strictly before `now` (elapsed time strictly exceeds
the timeout); each such entry with succeeding sinks contributes one exit
event dated at the sweep clock; and when a pending visitor is never
resolved again while some frame's sweep clock strictly passes its
deadline, exactly one exit event is emitted, dated strictly after the
deadline. -/
theorem C4_sweep_amended (cfg : Config) (f : FrameEnv) (s : SysState) (hWF : WF s) :
    ((update_frame cfg f s).1.tr.pending_exit =
      (framePending3 cfg f s).filter fun p => ¬expiredAt cfg f p) ∧
    (∀ v pd, (v, pd) ∈ framePending3 cfg f s → expiredAt cfg f (v, pd) →
      f.save_exit_ok v = true → f.db_exit_ok v = true →
      (⟨v, EvKind.exit, f.tSweep⟩ : Event) ∈ (update_frame cfg f s).2) ∧
    ∀ (fs : List FrameEnv) (v : VisitorId) (pd : PendingData),
      (v, pd) ∈ s.tr.pending_exit →
      (∀ (k : Nat) (hk : k < fs.length),
        v ∉ visibleOf cfg fs[k] (runFrames cfg (fs.take k) s).1) →
      (∀ g ∈ fs, g.save_exit_ok v = true ∧ g.db_exit_ok v = true) →
      (∃ g ∈ fs, pd.timestamp + cfg.exit_timeout < g.tSweep) →
      ∃ t, pd.timestamp + cfg.exit_timeout < t ∧
        (runFrames cfg fs s).2.filter (fun e => e.visitor = v) =
          [⟨v, EvKind.exit, t⟩] := by
  have hndP : (pendingKeys s.tr.pending_exit).Nodup := hWF.2.1
  have hp3nd := framePending3_nodup cfg f s hndP
  refine ⟨?_, ?_, ?_⟩
  · rw [update_frame_pending]
    apply List.filter_congr
    intro p hp
    apply decide_eq_decide.2
    constructor
    · intro hnk hexp
      exact hnk (mem_expiredKeys_iff.2 ⟨p.2, hp, hexp⟩)
    · intro hne hmem
      rcases mem_expiredKeys_iff.1 hmem with ⟨pd2, hpd2, hexp2⟩
      have hpdq : pd2 = p.2 := nodup_keys_eq hp3nd hpd2 hp
      rw [hpdq] at hexp2
      exact hne hexp2
  · intro v pd hp3 hexp hsave hdb
    rw [update_frame_events]
    apply List.mem_append.2
    right
    apply List.mem_flatMap.2
    refine ⟨(v, pd), hp3, ?_⟩
    unfold exitEvts
    rw [if_pos hexp, if_pos hsave, if_pos hdb]
    simp
  · intro fs v pd hpd habsent hsinks hex
    have hnva : v ∉ activeVisitors s.tr.active_tracks :=
      hWF.2.2.2 v (mem_pendingKeys_iff.2 ⟨pd, hpd⟩)
    exact run_pending_expires cfg fs s v pd hWF hpd hnva habsent hsinks hex

/-- C4 witness: the sweep at clock 5 on the pending entry of deadline 4. -/
theorem C4_amended_witness :
    WF sC4 ∧
      (update_frame cfgW fC4b sC4).1.tr.pending_exit =
        (framePending3 cfgW fC4b sC4).filter fun p => ¬expiredAt cfgW fC4b p :=
  ⟨by decide, (C4_sweep_amended cfgW fC4b sC4 (by decide)).1⟩

/-- C5 counterexample: the first frame's entry image save fails; contrary
to the claim that the in-memory state is updated as if the emission had
succeeded, the visitor is NOT added to `logged_entry_this_visit` (while
the same frame with a succeeding save does add it). -/
theorem C5_counterexample :
    (0 : VisitorId) ∈ visibleOf cfgW fC5fail initState ∧
      (update_frame cfgW fC5fail initState).2 = [] ∧
      (0 : VisitorId) ∉ (update_frame cfgW fC5fail initState).1.tr.logged_entry_this_visit ∧
      (0 : VisitorId) ∈ (update_frame cfgW fC5ok initState).1.tr.logged_entry_this_visit :=
  ⟨by decide, by decide, by decide, by decide⟩

/-- C5 (amended): a failed `Events` insert on entry leaves no recorded
event yet marks the visit entered (no retry); a failed entry image save
leaves no recorded event and does NOT mark the visit entered, so the
entry emission is re-attempted on a later frame in which the visitor is
visible and the sinks succeed; failed exit sinks leave no recorded event
while the pending entry and the entered mark are removed as if the exit
had succeeded. -/
theorem C5_sink_policy (cfg : Config) (f : FrameEnv) (s : SysState) (hWF : WF s)
    (v : VisitorId) :
    (v ∈ visibleOf cfg f s → v ∉ s.tr.logged_entry_this_visit →
      f.save_entry_ok v = true → f.db_entry_ok v = false →
      (update_frame cfg f s).2.filter (fun e => e.visitor = v) = [] ∧
        v ∈ (update_frame cfg f s).1.tr.logged_entry_this_visit) ∧
    (v ∈ visibleOf cfg f s → v ∉ s.tr.logged_entry_this_visit →
      f.save_entry_ok v = false →
      (update_frame cfg f s).2.filter (fun e => e.visitor = v) = [] ∧
        v ∉ (update_frame cfg f s).1.tr.logged_entry_this_visit) ∧
    (v ∈ visibleOf cfg f s → v ∉ s.tr.logged_entry_this_visit →
      f.save_entry_ok v = true → f.db_entry_ok v = true →
      (⟨v, EvKind.entry, f.tEntry⟩ : Event) ∈ (update_frame cfg f s).2) ∧
    ∀ pd, (v, pd) ∈ s.tr.pending_exit → v ∉ visibleOf cfg f s →
      pd.timestamp + cfg.exit_timeout < f.tSweep →
      (f.save_exit_ok v = false ∨ f.db_exit_ok v = false) →
      (update_frame cfg f s).2.filter (fun e => e.visitor = v) = [] ∧
        v ∉ pendingKeys (update_frame cfg f s).1.tr.pending_exit ∧
        v ∉ (update_frame cfg f s).1.tr.logged_entry_this_visit := by
  obtain ⟨hndA, hndP, hndL, hdisj⟩ := hWF
  refine ⟨?_, ?_, ?_, ?_⟩
  · intro hvis hlg hsave hdbf
    rw [visibleOf_eq] at hvis
    have hnp3 : v ∉ pendingKeys (framePending3 cfg f s) :=
      fun hmem => framePending3_not_visible cfg f s v hmem hvis
    have hnexp : v ∉ expiredKeys cfg f (framePending3 cfg f s) :=
      fun hmem => hnp3 (expiredKeys_subset cfg f _ hmem)
    constructor
    · rw [update_frame_events, List.filter_append, frame_entry_filter cfg f s hndA v,
        if_neg (by rintro ⟨_, _, _, h4⟩; rw [hdbf] at h4; exact Bool.noConfusion h4),
        List.nil_append, flatMap_exit_filter_notmem cfg f v _ hnp3]
    · rw [update_logged_iff]
      exact ⟨(frame_logged2_iff cfg f s hndA v).2 (Or.inr ⟨hvis, hsave⟩), hnexp⟩
  · intro hvis hlg hsavef
    rw [visibleOf_eq] at hvis
    have hnp3 : v ∉ pendingKeys (framePending3 cfg f s) :=
      fun hmem => framePending3_not_visible cfg f s v hmem hvis
    constructor
    · rw [update_frame_events, List.filter_append, frame_entry_filter cfg f s hndA v,
        if_neg (by rintro ⟨_, _, h3, _⟩; rw [hsavef] at h3; exact Bool.noConfusion h3),
        List.nil_append, flatMap_exit_filter_notmem cfg f v _ hnp3]
    · rw [update_logged_iff]
      rintro ⟨hin, _⟩
      rcases (frame_logged2_iff cfg f s hndA v).1 hin with h | ⟨_, h⟩
      · exact hlg h
      · rw [hsavef] at h
        exact Bool.noConfusion h
  · intro hvis hlg hsave hdb
    rw [visibleOf_eq] at hvis
    have hfil : (frameO2 cfg f s).events.filter (fun e => e.visitor = v) =
        [⟨v, EvKind.entry, f.tEntry⟩] := by
      rw [frame_entry_filter cfg f s hndA v, if_pos ⟨hvis, hlg, hsave, hdb⟩]
    have hmem : (⟨v, EvKind.entry, f.tEntry⟩ : Event) ∈
        (frameO2 cfg f s).events.filter (fun e => e.visitor = v) := by
      rw [hfil]
      simp
    rw [update_frame_events]
    exact List.mem_append.2 (Or.inl (List.mem_filter.1 hmem).1)
  · intro pd hpd hnvis hexp hfail
    rw [visibleOf_eq] at hnvis
    have hnva : v ∉ activeVisitors s.tr.active_tracks :=
      hdisj v (mem_pendingKeys_iff.2 ⟨pd, hpd⟩)
    have hp3 : (v, pd) ∈ framePending3 cfg f s :=
      (framePending3_untouched cfg f s hndA v pd hnva hnvis).2 hpd
    have hp3nd := framePending3_nodup cfg f s hndP
    have hexpv : expiredAt cfg f (v, pd) := by
      unfold expiredAt
      simp only
      linarith
    have hvexp : v ∈ expiredKeys cfg f (framePending3 cfg f s) :=
      mem_expiredKeys_iff.2 ⟨pd, hp3, hexpv⟩
    have hnoexit : exitEvts cfg f (v, pd) = [] := by
      unfold exitEvts
      rw [if_pos hexpv]
      rcases hfail with hs | hd
      · rw [if_neg (by rw [hs]; exact Bool.noConfusion)]
      · by_cases hs2 : f.save_exit_ok v = true
        · rw [if_pos hs2, if_neg (by rw [hd]; exact Bool.noConfusion)]
        · rw [if_neg hs2]
    refine ⟨?_, ?_, ?_⟩
    · rw [update_frame_events, List.filter_append, frame_entry_filter cfg f s hndA v,
        if_neg (fun hcond => hnvis hcond.1), List.nil_append,
        flatMap_exit_filter_mem cfg f _ hp3nd hp3, hnoexit]
    · rw [update_frame_pending]
      intro hmem
      rcases mem_pendingKeys_iff.1 hmem with ⟨pd2, hpd2⟩
      exact (by simpa using (List.mem_filter.1 hpd2).2 :
        v ∉ expiredKeys cfg f (framePending3 cfg f s)) hvexp
    · rw [update_logged_iff]
      rintro ⟨_, hne⟩
      exact hne hvexp

/-- C5 witness: entry image save failure leaves the visitor outside
`logged_entry_this_visit` with nothing recorded. -/
theorem C5_amended_witness :
    WF initState ∧ (0 : VisitorId) ∈ visibleOf cfgW fC5fail initState ∧
      fC5fail.save_entry_ok 0 = false ∧
      ((update_frame cfgW fC5fail initState).2.filter (fun e => e.visitor = 0) = [] ∧
        (0 : VisitorId) ∉
          (update_frame cfgW fC5fail initState).1.tr.logged_entry_this_visit) :=
  ⟨by decide, by decide, rfl,
    (C5_sink_policy cfgW fC5fail initState (by decide) 0).2.1 (by decide) (by decide) rfl⟩

/-- C6: a reported binding that is new to the Track Registry and whose
crop yields no embedding is skipped for the current frame only: the
update behaves exactly as if the binding had not been reported, no
Active Track Entry is created for it, and on any later frame where the
binding is still reported with a usable crop (and the store can
register) it is resolved to a visitor that becomes visible. -/
theorem C6_no_usable_face (cfg : Config) (f : FrameEnv) (s : SysState)
    (tid : TrackId) (c : Crop) (l1 l2 : List (TrackId × Crop))
    (ht : f.tracks = some (l1 ++ (tid, c) :: l2))
    (hnotin : tid ∉ s.tr.active_tracks.map Prod.fst)
    (hnotrep : tid ∉ (l1 ++ l2).map Prod.fst)
    (hbad : cfg.get_embedding c = none) :
    update_frame cfg f s = update_frame cfg { f with tracks := some (l1 ++ l2) } s ∧
      tid ∉ (update_frame cfg f s).1.tr.active_tracks.map Prod.fst ∧
      ∀ (f2 : FrameEnv) (s2 : SysState) (c2 : Crop) (emb : Emb)
        (l1b l2b : List (TrackId × Crop)),
        f2.tracks = some (l1b ++ (tid, c2) :: l2b) →
        tid ∉ s2.tr.active_tracks.map Prod.fst →
        tid ∉ (l1b ++ l2b).map Prod.fst →
        cfg.get_embedding c2 = some emb → f2.register_ok emb = true →
        ∃ v c3, (tid, ⟨v, c3⟩) ∈ (update_frame cfg f2 s2).1.tr.active_tracks ∧
          v ∈ visibleOf cfg f2 s2 := by
  have heq := update_skip_bad cfg f s tid c l1 l2 ht hnotin hnotrep hbad
  refine ⟨heq, ?_, ?_⟩
  · rw [heq, update_frame_active]
    intro hmem
    rcases List.mem_map.1 hmem with ⟨p, hp, hpt⟩
    have hp1 : p ∈ (frameO1 cfg { f with tracks := some (l1 ++ l2) } s).active :=
      (List.mem_filter.1 hp).1
    have hp2 : p ∈ ((l1 ++ l2).foldl
        (loop1Step cfg { f with tracks := some (l1 ++ l2) })
        (⟨s.db, s.tr.active_tracks, []⟩ : Loop1Out)).active := hp1
    rcases loop1_keys_from cfg _ (l1 ++ l2) _ p hp2 with h | h
    · exact hnotin (hpt ▸ h)
    · exact hnotrep (hpt ▸ h)
  · intro f2 s2 c2 emb l1b l2b ht2 hnotin2 hnotrep2 hemb2 hreg2
    exact resolve_retry cfg f2 s2 tid c2 l1b l2b emb ht2 hnotin2 hnotrep2 hemb2 hreg2

/-- C6 witness: crop 99 has no usable face; reporting binding 4 with it
is exactly skipping it. -/
theorem C6_witness :
    cfgW.get_embedding 99 = none ∧
      update_frame cfgW fC6 initState =
        update_frame cfgW { fC6 with tracks := some ([] ++ []) } initState :=
  ⟨rfl, (C6_no_usable_face cfgW fC6 initState 4 99 [] [] rfl (by decide) (by decide)
    rfl).1⟩

/-- C9: a pending visitor that is resolved again before its deadline
strictly elapses triggers no exit for that departure, is removed from
the Pending Exit Buffer, and (its visit still being open) no duplicate
entry is emitted either: the reappearance frame's entry/cancel step runs
before churn reconciliation and the sweep. -/
theorem C9_reappearance_cancels (cfg : Config) (s : SysState) (hWF : WF s)
    (v : VisitorId) (pd : PendingData) (hpd : (v, pd) ∈ s.tr.pending_exit)
    (fs : List FrameEnv) (fk : FrameEnv)
    (habsent : ∀ (k : Nat) (hk : k < fs.length),
      v ∉ visibleOf cfg fs[k] (runFrames cfg (fs.take k) s).1)
    (hnolate : ∀ g ∈ fs, g.tSweep ≤ pd.timestamp + cfg.exit_timeout)
    (hvisk : v ∈ visibleOf cfg fk (runFrames cfg fs s).1) :
    (visitorKinds (runFrames cfg (fs ++ [fk]) s).2 v).count EvKind.exit = 0 ∧
      v ∉ pendingKeys (runFrames cfg (fs ++ [fk]) s).1.tr.pending_exit ∧
      (v ∈ s.tr.logged_entry_this_visit →
        EvKind.entry ∉ visitorKinds (runFrames cfg (fs ++ [fk]) s).2 v) := by
  have hnva : v ∉ activeVisitors s.tr.active_tracks :=
    hWF.2.2.2 v (mem_pendingKeys_iff.2 ⟨pd, hpd⟩)
  rcases run_pending_stable cfg fs s v pd hWF hpd hnva habsent hnolate with
    ⟨h1, h2, h3, h4⟩
  have hWFk := run_WF cfg fs s hWF
  obtain ⟨hndAk, hndPk, hndLk, hdisjk⟩ := hWFk
  have hviskk : v ∈ (frameO1 cfg fk (runFrames cfg fs s).1).visible := by
    rwa [visibleOf_eq] at hvisk
  have hnp3 : v ∉ pendingKeys (framePending3 cfg fk (runFrames cfg fs s).1) :=
    fun hmem => framePending3_not_visible cfg fk _ v hmem hviskk
  have hfk : (update_frame cfg fk (runFrames cfg fs s).1).2.filter
      (fun e => e.visitor = v) =
      (if v ∈ (frameO1 cfg fk (runFrames cfg fs s).1).visible ∧
          v ∉ (runFrames cfg fs s).1.tr.logged_entry_this_visit ∧
          fk.save_entry_ok v = true ∧ fk.db_entry_ok v = true then
        [(⟨v, EvKind.entry, fk.tEntry⟩ : Event)]
      else []) := by
    rw [update_frame_events, List.filter_append, frame_entry_filter cfg fk _ hndAk v,
      flatMap_exit_filter_notmem cfg fk v _ hnp3, List.append_nil]
  have hnil : (runFrames cfg ([] : List FrameEnv)
      (update_frame cfg fk (runFrames cfg fs s).1).1).2 = [] := rfl
  have hrunfil : (runFrames cfg (fs ++ [fk]) s).2.filter (fun e => e.visitor = v) =
      (update_frame cfg fk (runFrames cfg fs s).1).2.filter (fun e => e.visitor = v) := by
    rw [runFrames_append_snd cfg fs [fk] s, List.filter_append, h3, List.nil_append,
      runFrames_cons, hnil, List.append_nil]
  refine ⟨?_, ?_, ?_⟩
  · unfold visitorKinds
    rw [hrunfil, hfk]
    by_cases hcond : v ∈ (frameO1 cfg fk (runFrames cfg fs s).1).visible ∧
        v ∉ (runFrames cfg fs s).1.tr.logged_entry_this_visit ∧
        fk.save_entry_ok v = true ∧ fk.db_entry_ok v = true
    · rw [if_pos hcond]
      rfl
    · rw [if_neg hcond]
      rfl
  · rw [runFrames_append_fst cfg fs [fk] s]
    show v ∉ pendingKeys
      (update_frame cfg fk (runFrames cfg fs s).1).1.tr.pending_exit
    rw [update_frame_pending]
    intro hmem
    rcases mem_pendingKeys_iff.1 hmem with ⟨pd2, hpd2⟩
    exact hnp3 (mem_pendingKeys_iff.2 ⟨pd2, (List.mem_filter.1 hpd2).1⟩)
  · intro hlg
    have hcond : ¬(v ∈ (frameO1 cfg fk (runFrames cfg fs s).1).visible ∧
        v ∉ (runFrames cfg fs s).1.tr.logged_entry_this_visit ∧
        fk.save_entry_ok v = true ∧ fk.db_entry_ok v = true) := by
      rintro ⟨_, h2c, _⟩
      exact h2c (h4.2 hlg)
    unfold visitorKinds
    rw [hrunfil, hfk, if_neg hcond]
    simp

/-- C9 witness: visitor 0 pending since tick 1 (deadline 4) reappears at
tick 3 under a fresh binding; no exit is ever emitted. -/
theorem C9_witness :
    WF sC4 ∧ ((0 : VisitorId), (⟨1, 100⟩ : PendingData)) ∈ sC4.tr.pending_exit ∧
      (0 : VisitorId) ∈ visibleOf cfgW fC9k (runFrames cfgW [fC9mid] sC4).1 ∧
      (visitorKinds (runFrames cfgW ([fC9mid] ++ [fC9k]) sC4).2 0).count EvKind.exit = 0 := by
  have habs : ∀ (k : Nat) (hk : k < ([fC9mid] : List FrameEnv).length),
      (0 : VisitorId) ∉ visibleOf cfgW ([fC9mid] : List FrameEnv)[k]
        (runFrames cfgW (([fC9mid] : List FrameEnv).take k) sC4).1 := by
    intro k hk
    have hk0 : k = 0 := by
      simp only [List.length_cons, List.length_nil] at hk
      omega
    subst hk0
    simp only [List.getElem_cons_zero, List.take_zero]
    decide
  have hnolate : ∀ g ∈ [fC9mid],
      g.tSweep ≤ (⟨1, 100⟩ : PendingData).timestamp + cfgW.exit_timeout := by
    intro g hg
    simp only [List.mem_singleton] at hg
    subst hg
    decide
  have h := C9_reappearance_cancels cfgW sC4 (by decide) 0 ⟨1, 100⟩ (by decide)
    [fC9mid] fC9k habs hnolate (by decide)
  exact ⟨by decide, by decide, by decide, h.1⟩

/-- C10: a frame whose tracker output has no ids (`tracks.id is None`)
has an empty visible set and emits only exit events; every Active Track
Entry is removed and its visitor is either pending afterwards or
swept out with an exit event this very frame, and every pending entry
whose deadline strictly passed emits its exit and leaves the buffer. -/
theorem C10_empty_frame (cfg : Config) (f : FrameEnv) (s : SysState) (hWF : WF s)
    (hok : AllOk f) (hnone : f.tracks = none) :
    visibleOf cfg f s = [] ∧
      (∀ e ∈ (update_frame cfg f s).2, e.kind = EvKind.exit) ∧
      (update_frame cfg f s).1.tr.active_tracks = [] ∧
      (∀ v ∈ activeVisitors s.tr.active_tracks,
        v ∈ pendingKeys (update_frame cfg f s).1.tr.pending_exit ∨
          (⟨v, EvKind.exit, f.tSweep⟩ : Event) ∈ (update_frame cfg f s).2) ∧
      ∀ v pd, (v, pd) ∈ s.tr.pending_exit →
        pd.timestamp + cfg.exit_timeout < f.tSweep →
        (⟨v, EvKind.exit, f.tSweep⟩ : Event) ∈ (update_frame cfg f s).2 ∧
          v ∉ pendingKeys (update_frame cfg f s).1.tr.pending_exit := by
  obtain ⟨hreg, hsave, hdbe, hsavex, hdbx⟩ := hok
  obtain ⟨hndA, hndP, hndL, hdisj⟩ := hWF
  have htr : f.tracks.getD [] = [] := by rw [hnone]; rfl
  have ho1 : frameO1 cfg f s = ⟨s.db, s.tr.active_tracks, []⟩ := by
    unfold frameO1 loop1
    rw [htr]
    rfl
  have hvis : visibleOf cfg f s = [] := by rw [visibleOf_eq, ho1]
  have hlost : frameLost cfg f s = s.tr.active_tracks := by
    unfold frameLost
    rw [ho1, htr]
    simp
  have ho2e : (frameO2 cfg f s).events = [] := by
    unfold frameO2 loop2
    rw [ho1]
    rfl
  have hp3nd := framePending3_nodup cfg f s hndP
  refine ⟨hvis, ?_, ?_, ?_, ?_⟩
  · intro e he
    rw [update_frame_events, ho2e, List.nil_append] at he
    rcases List.mem_flatMap.1 he with ⟨p, hp, hpe⟩
    exact (exitEvts_kind e hpe).1
  · rw [update_frame_active, htr]
    apply List.filter_eq_nil_iff.2
    intro p hp
    simp
  · intro v hv
    have hnvis2 : v ∉ (frameO1 cfg f s).visible := by
      rw [ho1]
      exact List.not_mem_nil v
    have hlostv : v ∈ activeVisitors (frameLost cfg f s) := by
      rw [hlost]
      exact hv
    have hp3 : v ∈ pendingKeys (framePending3 cfg f s) :=
      (framePending3_keys cfg f s v).2 (Or.inr ⟨hlostv, hnvis2⟩)
    rcases mem_pendingKeys_iff.1 hp3 with ⟨pd, hpd⟩
    by_cases hexp : expiredAt cfg f (v, pd)
    · right
      rw [update_frame_events]
      apply List.mem_append.2
      right
      apply List.mem_flatMap.2
      refine ⟨(v, pd), hpd, ?_⟩
      unfold exitEvts
      rw [if_pos hexp, if_pos (hsavex v), if_pos (hdbx v)]
      simp
    · left
      rw [update_frame_pending]
      apply mem_pendingKeys_iff.2
      refine ⟨pd, List.mem_filter.2 ⟨hpd, ?_⟩⟩
      simp only [decide_eq_true_eq]
      intro hmem
      rcases mem_expiredKeys_iff.1 hmem with ⟨pd2, hpd2, hexp2⟩
      have hpdq : pd2 = pd := nodup_keys_eq hp3nd hpd2 hpd
      rw [hpdq] at hexp2
      exact hexp hexp2
  · intro v pd hpd hexp
    have hnva : v ∉ activeVisitors s.tr.active_tracks :=
      hdisj v (mem_pendingKeys_iff.2 ⟨pd, hpd⟩)
    have hnvis2 : v ∉ (frameO1 cfg f s).visible := by
      rw [ho1]
      exact List.not_mem_nil v
    have hp3 : (v, pd) ∈ framePending3 cfg f s :=
      (framePending3_untouched cfg f s hndA v pd hnva hnvis2).2 hpd
    have hexpv : expiredAt cfg f (v, pd) := by
      show cfg.exit_timeout < f.tSweep - pd.timestamp
      linarith
    constructor
    · rw [update_frame_events]
      apply List.mem_append.2
      right
      apply List.mem_flatMap.2
      refine ⟨(v, pd), hp3, ?_⟩
      unfold exitEvts
      rw [if_pos hexpv, if_pos (hsavex v), if_pos (hdbx v)]
      simp
    · rw [update_frame_pending]
      intro hmem
      rcases mem_pendingKeys_iff.1 hmem with ⟨pd2, hpd2⟩
      have h2 := (List.mem_filter.1 hpd2).2
      simp only [decide_eq_true_eq] at h2
      exact h2 (mem_expiredKeys_iff.2 ⟨pd, hp3, hexpv⟩)

/-- C10 witness: a `tracks.id is None` frame on a state with one active
track removes the binding and leaves the visitor pending. -/
theorem C10_witness :
    WF sW ∧ fC10.tracks = none ∧ visibleOf cfgW fC10 sW = [] ∧
      (update_frame cfgW fC10 sW).1.tr.active_tracks = [] := by
  have h := C10_empty_frame cfgW fC10 sW (by decide) (okFrame_AllOk none 10) rfl
  exact ⟨by decide, rfl, h.1, h.2.2.1⟩

end Facetrack
